import Mathlib

/-!
Verification development for the skylight-api HAR→OpenAPI converter.

The TypeScript sources under `src/` are shallowly embedded below:

* `src/redaction/patterns.ts` / `body.ts` / `index.ts` — sensitive-field
  tables, JSON body redaction (`redactBody`, `redactObject`,
  `getRedactedValue`, `redactIdValue`, `redactStringValue`), POST-data
  redaction (`redactPostData`).
* `src/schema/inferrer.ts` — string-format inference (`inferStringSchema`)
  and schema merging (`mergeSchemas`).
* `src/har/filter.ts` / `merger.ts` — dedup keys (`getEntryKey`),
  deduplication and deterministic ordering (`deduplicateEntries`,
  `mergeHarFiles`).
* `src/converter/path-normalizer.ts` — path normalization
  (`normalizePath`, `extractPathParameters`, `addPathParameters`,
  `mergePathItems`, `normalizeOpenApiPaths`).

JavaScript regular expressions are embedded as explicit character-list
matchers that follow the engine's leftmost-match, greedy, backtracking
semantics for the concrete patterns appearing in the source.  Scanning
loops take an explicit fuel argument (always instantiated with more fuel
than the input length; every step consumes at least one character) so
that all definitions compute by kernel reduction.
-/

namespace Skylight

/-! ### ASCII string helpers (models of the JavaScript string methods used) -/

/-- Model of `String.prototype.toLowerCase` restricted to ASCII, which is the
only alphabet appearing in the embedded tables and patterns. -/
def asciiLowerChar (c : Char) : Char :=
  if 'A' ≤ c && c ≤ 'Z' then Char.ofNat (c.toNat + 32) else c

/-- Model of `String.prototype.toUpperCase` restricted to ASCII. -/
def asciiUpperChar (c : Char) : Char :=
  if 'a' ≤ c && c ≤ 'z' then Char.ofNat (c.toNat - 32) else c

/-- JavaScript `s.toLowerCase()` (ASCII fragment). -/
def jsToLowerCase (s : String) : String := ⟨s.data.map asciiLowerChar⟩

/-- JavaScript `s.toUpperCase()` (ASCII fragment). -/
def jsToUpperCase (s : String) : String := ⟨s.data.map asciiUpperChar⟩

/-- Does `sub` occur as a contiguous sublist of `l`?  Model of
`String.prototype.includes` on the underlying character lists. -/
def listIncludesSub (sub : List Char) : List Char → Bool
  | [] => sub.isEmpty
  | c :: t => sub.isPrefixOf (c :: t) || listIncludesSub sub t

/-- JavaScript `s.includes(sub)`. -/
def jsIncludes (s sub : String) : Bool := listIncludesSub sub.data s.data

/-- JavaScript regex word character `\w`, that is `[A-Za-z0-9_]`. -/
def isWordChar (c : Char) : Bool := c.isAlphanum || c = '_'

/-- Hexadecimal digit, both cases (used by the case-insensitive patterns). -/
def isHexChar (c : Char) : Bool :=
  c.isDigit || ('a' ≤ c && c ≤ 'f') || ('A' ≤ c && c ≤ 'F')

/-- Drop exactly `n` decimal digits, returning the rest of the input. -/
def dropDigits : Nat → List Char → Option (List Char)
  | 0, l => some l
  | _ + 1, [] => none
  | n + 1, c :: t => if c.isDigit then dropDigits n t else none

/-- Drop exactly `n` hexadecimal digits, returning the rest of the input. -/
def dropHex : Nat → List Char → Option (List Char)
  | 0, l => some l
  | _ + 1, [] => none
  | n + 1, c :: t => if isHexChar c then dropHex n t else none

/-- Drop one expected literal character. -/
def dropLit (c : Char) : List Char → Option (List Char)
  | [] => none
  | x :: t => if x = c then some t else none

/-- Drop an expected literal character sequence. -/
def dropLits : List Char → List Char → Option (List Char)
  | [], l => some l
  | _ :: _, [] => none
  | c :: cs, x :: t => if x = c then dropLits cs t else none

/-- Drop an expected literal sequence, comparing case-insensitively
(model of a case-sensitive-source literal under the regex `i` flag). -/
def dropLitsCI : List Char → List Char → Option (List Char)
  | [], l => some l
  | _ :: _, [] => none
  | c :: cs, x :: t => if asciiLowerChar x = asciiLowerChar c then dropLitsCI cs t else none

/-- Three-way lexicographic comparison of character lists by code point;
the model used for `String.prototype.localeCompare` (the source sorts
URLs, for which the default collation agrees with code-point order). -/
def listCompare : List Char → List Char → Int
  | [], [] => 0
  | [], _ :: _ => -1
  | _ :: _, [] => 1
  | a :: as, b :: bs => if a < b then -1 else if b < a then 1 else listCompare as bs

/-- JavaScript `a.localeCompare(b)` as used for URL ordering. -/
def localeCompare (a b : String) : Int := listCompare a.data b.data

/-- Scanning loop of `jsIndexOf`, carrying the current index. -/
def jsIndexOfGo (s : String) (i : Int) : List String → Int
  | [] => -1
  | x :: xs => if x = s then i else jsIndexOfGo s (i + 1) xs

/-- JavaScript `arr.indexOf(x)` on string arrays: index or `-1`. -/
def jsIndexOf (l : List String) (s : String) : Int :=
  jsIndexOfGo s 0 l

/-- Word-character test extended to an optional character; positions
outside the string count as non-word for `\b` boundaries. -/
def wordOpt : Option Char → Bool
  | none => false
  | some c => isWordChar c

/-! ### Decoded JSON values

Bodies are redacted after `JSON.parse`; this type is the decoded JSON
value space.  Object fields are kept as an ordered association list
(JavaScript objects preserve insertion order and have distinct keys).
Numbers are modelled as integers: no embedded operation reads or writes
a numeric value, so the representation of the numeric leaf is
irrelevant to every claim. -/

inductive Json where
  | null
  | bool (b : Bool)
  | num (n : Int)
  | str (s : String)
  | arr (items : List Json)
  | obj (fields : List (String × Json))

/-! ### Pattern registry (`src/redaction/patterns.ts`) -/

/-- Body fields that should be redacted (`SENSITIVE_BODY_FIELDS`). -/
def SENSITIVE_BODY_FIELDS : List String :=
  ["email", "phone", "phone_number", "token", "access_token", "refresh_token",
   "api_key", "password", "secret", "profile_pic_url", "avatar_url",
   "first_name", "last_name", "full_name", "address", "street", "city",
   "zip", "postal_code"]

/-- Body fields that are IDs (`ID_BODY_FIELDS`). -/
def ID_BODY_FIELDS : List String :=
  ["id", "user_id", "frame_id", "list_id", "chore_id", "category_id", "device_id"]

/-- Placeholder values for redacted data (`REDACTION_PLACEHOLDERS`). -/
structure RedactionPlaceholders where
  string : String
  email : String
  phone : String
  id : String
  url : String
  token : String

def REDACTION_PLACEHOLDERS : RedactionPlaceholders :=
  { string := "REDACTED"
    email := "user@example.com"
    phone := "555-555-5555"
    id := "REDACTED_ID"
    url := "https://example.com/redacted"
    token := "REDACTED_TOKEN" }

/-! ### PII regular expressions (`PII_PATTERNS`)

Each JS pattern is embedded as a position matcher
`Option Char → List Char → Option Nat`: given the previous character
(for `\b`) and the rest of the input, return the length of the regex
match starting here, following the engine's greedy/backtracking
semantics for that concrete pattern. -/

/-- Character class `[A-Za-z0-9._%+-]` (local part of the email pattern). -/
def classLocal (c : Char) : Bool :=
  c.isAlphanum || c = '.' || c = '_' || c = '%' || c = '+' || c = '-'

/-- Character class `[A-Za-z0-9.-]` (domain part of the email pattern). -/
def classDomain (c : Char) : Bool := c.isAlphanum || c = '.' || c = '-'

/-- Character class `[A-Z|a-z]` of the email pattern — written in the
source with a literal `|` inside the class, so the bar is a member. -/
def classTldPII (c : Char) : Bool := c.isAlpha || c = '|'

/-- Character class `[A-Za-z0-9-_]` of the JWT pattern. -/
def classJwt (c : Char) : Bool := c.isAlphanum || c = '-' || c = '_'

/-- JavaScript `\s` for the separators of the phone pattern (ASCII part). -/
def isJsSpace (c : Char) : Bool :=
  c = ' ' || c = '\t' || c = '\n' || c = '\r' || c = Char.ofNat 11 || c = Char.ofNat 12

/-- Character class `[-.\s]` of the phone pattern. -/
def isSepChar (c : Char) : Bool := c = '-' || c = '.' || isJsSpace c

/-- Greedy trailing-run shrink for a final `[cls]+\b` (or `{2,}\b`) regex
tail: `run` is the maximal class run in `tail`, and the result is the
longest `j ≥ min` with a word boundary after `run.take j`. -/
def shrinkRunForBoundary (tail run : List Char) (min : Nat) : Nat → Option Nat
  | 0 => none
  | j + 1 =>
    match run.get? j with
    | some lastc =>
      if min ≤ j + 1 && ((isWordChar lastc) != wordOpt (tail.get? (j + 1))) then some (j + 1)
      else shrinkRunForBoundary tail run min j
    | none => shrinkRunForBoundary tail run min j

/-- Backtracking over `[A-Za-z0-9.-]+\.[A-Z|a-z]{2,}\b` after the `@`:
try the dot positions from right to left inside the maximal domain run. -/
def emailDomainTail (rest drun : List Char) : Nat → Option Nat
  | 0 => none
  | k + 1 =>
    (if drun.get? (k + 1) = some '.' then
      let tail := rest.drop (k + 2)
      let trun := tail.takeWhile classTldPII
      match shrinkRunForBoundary tail trun 2 trun.length with
      | some j => some (k + 1 + 1 + j)
      | none => emailDomainTail rest drun k
     else emailDomainTail rest drun k)

/-- `PII_PATTERNS.email`:
`\b[A-Za-z0-9._%+-]+@[A-Za-z0-9.-]+\.[A-Z|a-z]{2,}\b` at one position. -/
def emailMatchAt (prev : Option Char) (l : List Char) : Option Nat :=
  let localRun := l.takeWhile classLocal
  if localRun.isEmpty then none
  else if (wordOpt prev) == wordOpt l.head? then none
  else
    match dropLit '@' (l.drop localRun.length) with
    | none => none
    | some rest =>
      let drun := rest.takeWhile classDomain
      match emailDomainTail rest drun drun.length with
      | some n => some (localRun.length + 1 + n)
      | none => none

/-- Tail `\d{4}\b` of the phone pattern. -/
def phoneTail2 (l : List Char) : Option Nat :=
  match dropDigits 4 l with
  | some rest => if wordOpt rest.head? then none else some 4
  | none => none

/-- Tail `\d{3}[-.\s]?\d{4}\b` of the phone pattern, greedy on the
optional separator. -/
def phoneTail1 (l : List Char) : Option Nat :=
  match dropDigits 3 l with
  | none => none
  | some r =>
    let noSep := (phoneTail2 r).map (3 + ·)
    match r with
    | c :: t =>
      if isSepChar c then
        match phoneTail2 t with
        | some n => some (3 + 1 + n)
        | none => noSep
      else noSep
    | [] => noSep

/-- `PII_PATTERNS.phone`: `\b\d{3}[-.\s]?\d{3}[-.\s]?\d{4}\b`. -/
def phoneMatchAt (prev : Option Char) (l : List Char) : Option Nat :=
  if wordOpt prev then none
  else
    match dropDigits 3 l with
    | none => none
    | some r =>
      let noSep := (phoneTail1 r).map (3 + ·)
      match r with
      | c :: t =>
        if isSepChar c then
          match phoneTail1 t with
          | some n => some (3 + 1 + n)
          | none => noSep
        else noSep
      | [] => noSep

/-- `PII_PATTERNS.jwt`:
`\beyJ[A-Za-z0-9-_]+\.[A-Za-z0-9-_]+\.[A-Za-z0-9-_]+\b`. -/
def jwtMatchAt (prev : Option Char) (l : List Char) : Option Nat :=
  if wordOpt prev then none
  else
    match dropLits ['e', 'y', 'J'] l with
    | none => none
    | some r0 =>
      let run1 := r0.takeWhile classJwt
      if run1.isEmpty then none
      else
        match dropLit '.' (r0.drop run1.length) with
        | none => none
        | some r1 =>
          let run2 := r1.takeWhile classJwt
          if run2.isEmpty then none
          else
            match dropLit '.' (r1.drop run2.length) with
            | none => none
            | some r2 =>
              let run3 := r2.takeWhile classJwt
              match shrinkRunForBoundary r2 run3 1 run3.length with
              | some j => some (3 + run1.length + 1 + run2.length + 1 + j)
              | none => none

/-- Body of the UUID pattern `[0-9a-f]{8}-[0-9a-f]{4}-[0-9a-f]{4}-[0-9a-f]{4}-[0-9a-f]{12}`
(case-insensitive), returning the rest of the input after a match. -/
def uuidBodyAt (l : List Char) : Option (List Char) :=
  ((((((((dropHex 8 l).bind (dropLit '-')).bind (dropHex 4)).bind
    (dropLit '-')).bind (dropHex 4)).bind (dropLit '-')).bind (dropHex 4)).bind
    (dropLit '-')).bind (dropHex 12)

/-- Scan for `PII_PATTERNS.uuid` (`\b…\b`, flags `gi`) anywhere in the
input, as used by `RegExp.prototype.test`. -/
def uuidTestAux : Nat → Option Char → List Char → Bool
  | 0, _, _ => false
  | _ + 1, _, [] => false
  | fuel + 1, prev, c :: t =>
    (if wordOpt prev then false
     else
       match uuidBodyAt (c :: t) with
       | some rest => !(wordOpt rest.head?)
       | none => false)
    || uuidTestAux fuel (some c) t

/-- `PII_PATTERNS.uuid().test value`. -/
def uuidTest (s : String) : Bool := uuidTestAux (s.data.length + 1) none s.data

/-- Global regex replacement (`String.prototype.replace` with a `g`-flag
regex): scan left to right, replace each leftmost match and continue
after it; the previous original character is tracked for `\b`.  The fuel
is always given as more than the input length and every step consumes at
least one input character, so the fuel never runs out. -/
def globalReplaceB (m : Option Char → List Char → Option Nat) (repl : List Char) :
    Nat → Option Char → List Char → List Char
  | _, _, [] => []
  | 0, _, l => l
  | fuel + 1, prev, c :: t =>
    match m prev (c :: t) with
    | some (n + 1) =>
      repl ++ globalReplaceB m repl fuel ((c :: t).take (n + 1)).getLast? ((c :: t).drop (n + 1))
    | _ => c :: globalReplaceB m repl fuel (some c) t

/-- String-level wrapper for `globalReplaceB`. -/
def regexReplaceAll (m : Option Char → List Char → Option Nat) (repl : String)
    (s : String) : String :=
  ⟨globalReplaceB m repl.data (s.data.length + 1) none s.data⟩

/-! ### Body redaction (`src/redaction/body.ts`) -/

/-- Redact sensitive values from strings (`redactStringValue`): replace
embedded email, phone and JWT shapes by their placeholders, in order. -/
def redactStringValue (value : String) : String :=
  let r1 := regexReplaceAll emailMatchAt REDACTION_PLACEHOLDERS.email value
  let r2 := regexReplaceAll phoneMatchAt REDACTION_PLACEHOLDERS.phone r1
  regexReplaceAll jwtMatchAt REDACTION_PLACEHOLDERS.token r2

/-- Get the appropriate redacted value based on field name
(`getRedactedValue`). -/
def getRedactedValue (fieldName : String) (originalValue : Json) : Json :=
  let lowerName := jsToLowerCase fieldName
  if jsIncludes lowerName "email" then .str REDACTION_PLACEHOLDERS.email
  else if jsIncludes lowerName "phone" then .str REDACTION_PLACEHOLDERS.phone
  else if jsIncludes lowerName "url" then .str REDACTION_PLACEHOLDERS.url
  else if jsIncludes lowerName "token" || jsIncludes lowerName "key"
       || jsIncludes lowerName "secret" then .str REDACTION_PLACEHOLDERS.token
  else
    match originalValue with
    | .str _ => .str REDACTION_PLACEHOLDERS.string
    | v => v

/-- Redact ID values (`redactIdValue`): a string containing a UUID shape
becomes the ID placeholder; everything else passes through. -/
def redactIdValue (value : Json) : Json :=
  match value with
  | .str s => if uuidTest s then .str REDACTION_PLACEHOLDERS.id else .str s
  | v => v

mutual

/-- Recursively redact sensitive data from a JSON body (`redactBody`). -/
def redactBody : Json → Json
  | .null => .null
  | .bool b => .bool b
  | .num n => .num n
  | .str s => .str (redactStringValue s)
  | .arr items => .arr (redactArr items)
  | .obj fields => .obj (redactObject fields)

/-- Elementwise redaction of an array body (`data.map(item => redactBody(item))`). -/
def redactArr : List Json → List Json
  | [] => []
  | x :: xs => redactBody x :: redactArr xs

/-- Redact fields in an object (`redactObject`): sensitive fields get a
placeholder, ID fields go through `redactIdValue`, all other fields are
redacted recursively.  Keys are never altered. -/
def redactObject : List (String × Json) → List (String × Json)
  | [] => []
  | (key, value) :: rest =>
    (key,
      if SENSITIVE_BODY_FIELDS.contains (jsToLowerCase key) then
        getRedactedValue key value
      else if ID_BODY_FIELDS.contains (jsToLowerCase key) then
        redactIdValue value
      else redactBody value) :: redactObject rest

end

/-! ### Shape of a JSON value

`JsonShape` keeps the object keys, array lengths and nesting structure
of a value and erases every leaf; two values have equal shapes exactly
when they agree on the key set of every object, the length of every
array, and the nesting depth, differing only in leaf values. -/

inductive JsonShape where
  | leaf
  | arr (items : List JsonShape)
  | obj (fields : List (String × JsonShape))

mutual

/-- Shape of a JSON value: erase the leaves, keep keys and structure. -/
def jsonShape : Json → JsonShape
  | .null => .leaf
  | .bool _ => .leaf
  | .num _ => .leaf
  | .str _ => .leaf
  | .arr items => .arr (jsonShapeList items)
  | .obj fields => .obj (jsonShapeFields fields)

def jsonShapeList : List Json → List JsonShape
  | [] => []
  | x :: xs => jsonShape x :: jsonShapeList xs

def jsonShapeFields : List (String × Json) → List (String × JsonShape)
  | [] => []
  | (k, v) :: rest => (k, jsonShape v) :: jsonShapeFields rest

end

mutual

/-- Nesting depth of a JSON value (leaves have depth 1). -/
def jsonDepth : Json → Nat
  | .null => 1
  | .bool _ => 1
  | .num _ => 1
  | .str _ => 1
  | .arr items => 1 + jsonDepthList items
  | .obj fields => 1 + jsonDepthFields fields

def jsonDepthList : List Json → Nat
  | [] => 0
  | x :: xs => max (jsonDepth x) (jsonDepthList xs)

def jsonDepthFields : List (String × Json) → Nat
  | [] => 0
  | (_, v) :: rest => max (jsonDepth v) (jsonDepthFields rest)

end

/-- Sensitive field names whose redaction replaces the value by a fixed
placeholder regardless of the value's type: those whose lowercased name
contains one of the placeholder-selecting substrings of
`getRedactedValue`. -/
def sensitiveNameHasPlaceholder (lowerKey : String) : Bool :=
  jsIncludes lowerKey "email" || jsIncludes lowerKey "phone" || jsIncludes lowerKey "url"
    || jsIncludes lowerKey "token" || jsIncludes lowerKey "key" || jsIncludes lowerKey "secret"

/-- Composite (non-leaf) JSON values. -/
def isCompositeJson : Json → Bool
  | .arr _ => true
  | .obj _ => true
  | _ => false

mutual

/-- Precondition under which body redaction preserves shape: no
sensitive field whose name selects a fixed placeholder holds a composite
(object or array) value anywhere in the body. -/
def shapeSafe : Json → Bool
  | .arr items => shapeSafeList items
  | .obj fields => shapeSafeFields fields
  | _ => true

def shapeSafeList : List Json → Bool
  | [] => true
  | x :: xs => shapeSafe x && shapeSafeList xs

def shapeSafeFields : List (String × Json) → Bool
  | [] => true
  | (key, value) :: rest =>
    (if SENSITIVE_BODY_FIELDS.contains (jsToLowerCase key) then
       (if sensitiveNameHasPlaceholder (jsToLowerCase key) then !(isCompositeJson value)
        else true)
     else if ID_BODY_FIELDS.contains (jsToLowerCase key) then true
     else shapeSafe value)
    && shapeSafeFields rest

end

/-! ### POST data redaction (`src/redaction/index.ts`) -/

/-- One form parameter of HAR `postData.params` (`HarParam`). -/
structure HarParam where
  name : String
  value : Option String
  fileName : Option String
  contentType : Option String
  comment : Option String
deriving DecidableEq, Repr

/-- HAR `postData` (`HarPostData`).  The HAR stores `text` as raw JSON
text; `redactPostData` parses it (`JSON.parse`), redacts the decoded
value and re-serialises it (`redactJsonContent`), leaving non-JSON or
unparsable text unchanged.  The text is modelled here in decoded form
(`Option Json`), so that round trip becomes `redactBody` on the decoded
value; no claim depends on the serialisation itself. -/
structure HarPostData where
  mimeType : String
  params : Option (List HarParam)
  text : Option Json
  comment : Option String

/-- Redact POST data (`redactPostData`): JSON text bodies are redacted
recursively; every form parameter keeps its name and metadata, and its
value becomes `'REDACTED'` when originally a non-empty string and
`undefined` otherwise. -/
def redactPostData : Option HarPostData → Option HarPostData
  | none => none
  | some postData =>
    let redactedText :=
      match postData.text with
      | some j => if jsIncludes postData.mimeType "json" then some (redactBody j) else some j
      | none => none
    some { postData with
      text := redactedText
      params := postData.params.map (List.map (fun param =>
        { param with
          value :=
            match param.value with
            | some v => if v = "" then none else some "REDACTED"
            | none => none })) }

/-! ### Schema inference (`src/schema/inferrer.ts`)

The `JSONSchema` interface is embedded as a recursive sum: the fields
read or written by the embedded operations (`type`, `format`,
`description`, `pattern`, `nullable`, `items`, `properties`, `required`,
`additionalProperties`, `oneOf`) are kept; the optional interface fields
never touched by any embedded operation (`enum`, `allOf`, `anyOf`,
`$ref`) are omitted. -/

/-- The `type` field: `string | string[]`. -/
inductive SchemaType where
  | single (t : String)
  | multi (ts : List String)
deriving DecidableEq, Repr

/-- A JSON-Schema node. -/
inductive JSONSchema where
  | mk
    (type : Option SchemaType)
    (format : Option String)
    (description : Option String)
    (pattern : Option String)
    (nullable : Option Bool)
    (items : Option JSONSchema)
    (properties : Option (List (String × JSONSchema)))
    (required : Option (List String))
    (additionalProperties : Option Bool)
    (oneOf : Option (List JSONSchema))

def JSONSchema.type : JSONSchema → Option SchemaType
  | .mk t _ _ _ _ _ _ _ _ _ => t

def JSONSchema.format : JSONSchema → Option String
  | .mk _ f _ _ _ _ _ _ _ _ => f

def JSONSchema.description : JSONSchema → Option String
  | .mk _ _ d _ _ _ _ _ _ _ => d

def JSONSchema.pattern : JSONSchema → Option String
  | .mk _ _ _ p _ _ _ _ _ _ => p

def JSONSchema.items : JSONSchema → Option JSONSchema
  | .mk _ _ _ _ _ i _ _ _ _ => i

def JSONSchema.properties : JSONSchema → Option (List (String × JSONSchema))
  | .mk _ _ _ _ _ _ ps _ _ _ => ps

def JSONSchema.required : JSONSchema → Option (List String)
  | .mk _ _ _ _ _ _ _ r _ _ => r

def JSONSchema.oneOf : JSONSchema → Option (List JSONSchema)
  | .mk _ _ _ _ _ _ _ _ _ o => o

/-- The empty/unconstrained schema `{}`. -/
def JSONSchema.empty : JSONSchema :=
  .mk none none none none none none none none none none

/-- A `{ type: 'string', … }` node with the given extra annotations. -/
def stringSchemaWith (format description pattern : Option String) : JSONSchema :=
  .mk (some (.single "string")) format description pattern none none none none none none

/-- Anchored date regex `^\d{4}-\d{2}-\d{2}$`. -/
def dateTest (s : String) : Bool :=
  ((((dropDigits 4 s.data).bind (dropLit '-')).bind (dropDigits 2)).bind
    (dropLit '-')).bind (dropDigits 2) = some []

/-- Prefix date-time regex `^\d{4}-\d{2}-\d{2}T\d{2}:\d{2}:\d{2}`. -/
def dateTimeTest (s : String) : Bool :=
  (((((((((dropDigits 4 s.data).bind (dropLit '-')).bind (dropDigits 2)).bind
    (dropLit '-')).bind (dropDigits 2)).bind (dropLit 'T')).bind
    (dropDigits 2)).bind (dropLit ':')).bind (dropDigits 2)).bind
    (dropLit ':') |>.bind (dropDigits 2) |>.isSome

/-- Anchored UUID regex `^[0-9a-f]{8}-…-[0-9a-f]{12}$` with flag `i`. -/
def uuidAnchoredTest (s : String) : Bool := uuidBodyAt s.data = some []

/-- Prefix URI regex `^https?:\/\/`. -/
def uriTest (s : String) : Bool :=
  (dropLits "https://".data s.data).isSome || (dropLits "http://".data s.data).isSome

/-- Anchored hex-color regex `^#?[0-9A-Fa-f]{6}$`. -/
def hexColorTest (s : String) : Bool :=
  match s.data with
  | '#' :: rest => dropHex 6 rest = some []
  | l => dropHex 6 l = some []

/-- Anchored time regex `^\d{2}:\d{2}$`. -/
def timeTest (s : String) : Bool :=
  ((dropDigits 2 s.data).bind (dropLit ':')).bind (dropDigits 2) = some []

/-- Domain/TLD part `[a-zA-Z0-9.-]+\.[a-zA-Z]{2,}$` of the anchored email
regex: since the TLD class has no dot, the dot of a match is necessarily
the one before the maximal alphabetic suffix. -/
def emailDomainAnchored (rest : List Char) : Bool :=
  let rev := rest.reverse
  let tldRev := rev.takeWhile Char.isAlpha
  decide (2 ≤ tldRev.length) &&
    (match rev.drop tldRev.length with
     | '.' :: prevRev => !prevRev.isEmpty && prevRev.all classDomain
     | _ => false)

/-- Anchored email regex `^[a-zA-Z0-9._%+-]+@[a-zA-Z0-9.-]+\.[a-zA-Z]{2,}$`. -/
def emailAnchoredTest (s : String) : Bool :=
  let l := s.data
  let localRun := l.takeWhile classLocal
  if localRun.isEmpty then false
  else
    match dropLit '@' (l.drop localRun.length) with
    | none => false
    | some rest => emailDomainAnchored rest

/-- Infer schema for string values with format detection
(`inferStringSchema`): first match wins, in source order. -/
def inferStringSchema (value : String) : JSONSchema :=
  if dateTest value then stringSchemaWith (some "date") none none
  else if dateTimeTest value then stringSchemaWith (some "date-time") none none
  else if uuidAnchoredTest value then stringSchemaWith (some "uuid") none none
  else if uriTest value then stringSchemaWith (some "uri") none none
  else if hexColorTest value then
    stringSchemaWith none (some "Hex color") (some "^#?[0-9A-Fa-f]{6}$")
  else if timeTest value then
    stringSchemaWith (some "time") (some "Time in HH:MM format") none
  else if emailAnchoredTest value then stringSchemaWith (some "email") none none
  else stringSchemaWith none none none

/-- The base types contributed by one `type` field, honouring the
JavaScript truthiness test `if (schema.type)`: an absent type and the
(unused) empty string are skipped, an array contributes each element. -/
def typeNames : Option SchemaType → List String
  | none => []
  | some (.single t) => if t = "" then [] else [t]
  | some (.multi ts) => ts

/-- Insertion-ordered set union, modelling `Set.prototype.add`. -/
def addTypes (acc : List String) (ts : List String) : List String :=
  ts.foldl (fun a t => if a.contains t then a else a ++ [t]) acc

/-- The insertion-ordered set of base types appearing across the input
nodes (`const types = new Set<string>()` loop of `mergeSchemas`). -/
def typesOf (schemas : List JSONSchema) : List String :=
  schemas.foldl (fun acc s => addTypes acc (typeNames s.type)) []

/-- Property grouping of `mergeObjectSchemas`: push `p` onto the group
of `key`, creating the group at the end on first sight. -/
def addProp (acc : List (String × List JSONSchema)) (key : String)
    (p : JSONSchema) : List (String × List JSONSchema) :=
  match acc with
  | [] => [(key, [p])]
  | (k, ps) :: rest =>
    if k = key then (k, ps ++ [p]) :: rest else (k, ps) :: addProp rest key p

/-- Collect `allProperties` across the input object schemas. -/
def collectProperties (schemas : List JSONSchema) : List (String × List JSONSchema) :=
  schemas.foldl
    (fun acc s =>
      match s.properties with
      | some props => props.foldl (fun a kp => addProp a kp.1 kp.2) acc
      | none => acc)
    []

/-- Collect the `allRequired` insertion-ordered set across the inputs. -/
def collectRequired (schemas : List JSONSchema) : List String :=
  schemas.foldl
    (fun acc s =>
      match s.required with
      | some rs => rs.foldl (fun a r => if a.contains r then a else a ++ [r]) acc
      | none => acc)
    []

/-- Merge multiple object schemas (`mergeObjectSchemas`), parameterized
by the recursive `mergeSchemas` call used on each property group. -/
def mergeObjectSchemasWith (merge : List JSONSchema → JSONSchema)
    (schemas : List JSONSchema) : JSONSchema :=
  let allProperties := collectProperties schemas
  let allRequired := collectRequired schemas
  let mergedProperties := allProperties.map (fun kps => (kps.1, merge kps.2))
  .mk (some (.single "object")) none none none none none (some mergedProperties)
    (if allRequired.isEmpty then none else some allRequired) (some true) none

/-- Merge multiple array schemas (`mergeArraySchemas`), parameterized by
the recursive `mergeSchemas` call used on the collected item schemas. -/
def mergeArraySchemasWith (merge : List JSONSchema → JSONSchema)
    (schemas : List JSONSchema) : JSONSchema :=
  let itemSchemas := schemas.filterMap JSONSchema.items
  .mk (some (.single "array")) none none none none
    (some (if itemSchemas.isEmpty then JSONSchema.empty else merge itemSchemas))
    none none none none

/-- Merge multiple schemas into one (`mergeSchemas`).  The fuel bounds
the property/item recursion depth; the wrapper below passes more fuel
than the total size of the input, and every recursive call works on
strictly smaller sub-schemas, so the zero-fuel fallback is never
reached. -/
def mergeSchemasF : Nat → List JSONSchema → JSONSchema
  | _, [] => JSONSchema.empty
  | _, [s] => s
  | 0, _ => JSONSchema.empty
  | fuel + 1, schemas =>
    match typesOf schemas with
    | [type] =>
      if type = "object" then mergeObjectSchemasWith (fun ss => mergeSchemasF fuel ss) schemas
      else if type = "array" then mergeArraySchemasWith (fun ss => mergeSchemasF fuel ss) schemas
      else schemas.headD JSONSchema.empty
    | _ => .mk none none none none none none none none none (some schemas)

mutual

/-- Size measure used only to compute a sufficient fuel for
`mergeSchemasF`; counts the nodes reachable through the recursive fields. -/
def schemaSize : JSONSchema → Nat
  | .mk _ _ _ _ _ items props _ _ oneOf =>
    1 + (match items with | some s => schemaSize s | none => 0)
      + (match props with | some ps => schemaSizeProps ps | none => 0)
      + (match oneOf with | some ss => schemaSizeList ss | none => 0)

def schemaSizeList : List JSONSchema → Nat
  | [] => 0
  | s :: ss => schemaSize s + schemaSizeList ss

def schemaSizeProps : List (String × JSONSchema) → Nat
  | [] => 0
  | kv :: rest => schemaSize kv.2 + schemaSizeProps rest

end

/-- Top-level `mergeSchemas` entry point. -/
def mergeSchemas (schemas : List JSONSchema) : JSONSchema :=
  mergeSchemasF (schemaSizeList schemas + 1) schemas

/-! ### HAR records (`src/har/types.ts`)

Only the attributes read by the embedded filter/merger functions are
modelled (`request.method`, `request.url`, `response.status`,
`response.content.size`); all other HAR attributes are carried through
those functions untouched and are irrelevant to every claim about them.
The content `size` is modelled as optional: the HAR interface declares
it, but `deduplicateEntries` defends against its absence with
`size || 0`, which the spec describes as "defaulting to 0 when
absent". -/

structure HarContent where
  size : Option Int
  mimeType : String
deriving DecidableEq, Repr

structure HarRequest where
  method : String
  url : String
deriving DecidableEq, Repr

structure HarResponse where
  status : Int
  content : HarContent
deriving DecidableEq, Repr

structure HarEntry where
  request : HarRequest
  response : HarResponse
deriving DecidableEq, Repr

structure HarCreator where
  name : String
  version : String
deriving DecidableEq, Repr

structure HarLog where
  version : String
  creator : HarCreator
  entries : List HarEntry
deriving DecidableEq, Repr

structure HarFile where
  log : HarLog
deriving DecidableEq, Repr

/-! ### Dedup key (`src/har/filter.ts`) -/

/-- Model of `new URL(url)` restricted to what `getEntryKey` reads: for
an `http(s)://host…` URL, the pair of `url.origin` and `url.pathname`
(the pathname defaults to `/`, and query and fragment are excluded);
`none` models the constructor throwing on other inputs.  Userinfo,
ports and percent/case normalisation of WHATWG parsing are not needed by
any claim and are not modelled: URLs are taken in the already-normalised
lowercase form in which HAR captures store them. -/
def parseUrlOriginPath (url : String) : Option (String × String) :=
  let parts :=
    match dropLits "https://".data url.data with
    | some rest => some ("https://".data, rest)
    | none =>
      match dropLits "http://".data url.data with
      | some rest => some ("http://".data, rest)
      | none => none
  match parts with
  | none => none
  | some (scheme, rest) =>
    let host := rest.takeWhile (fun c => c ≠ '/' && c ≠ '?' && c ≠ '#')
    if host.isEmpty then none
    else
      let afterHost := rest.drop host.length
      let pathname := afterHost.takeWhile (fun c => c ≠ '?' && c ≠ '#')
      some (⟨scheme ++ host⟩, if pathname.isEmpty then "/" else ⟨pathname⟩)

/-- Well-formedness of a host for the URL model: non-empty, framed by
the next delimiter (`/`, `?` or `#`). -/
def urlHostOk (host : String) : Bool :=
  !host.data.isEmpty && host.data.all (fun c => c ≠ '/' && c ≠ '?' && c ≠ '#')

/-- Well-formedness of a pathname for the URL model: starts with a
slash and contains no query/fragment delimiter. -/
def urlPathOk (p : String) : Bool :=
  p.data.head? = some '/' && p.data.all (fun c => c ≠ '?' && c ≠ '#')

/-- Unique entry key for deduplication (`getEntryKey`):
`method:origin+pathname:status`, falling back to the raw URL when the
URL does not parse. -/
def getEntryKey (entry : HarEntry) : String :=
  match parseUrlOriginPath entry.request.url with
  | some (origin, pathname) =>
    entry.request.method ++ ":" ++ origin ++ pathname ++ ":" ++ toString entry.response.status
  | none =>
    entry.request.method ++ ":" ++ entry.request.url ++ ":" ++ toString entry.response.status

/-! ### Deduplication and ordering (`src/har/merger.ts`) -/

/-- Declared response body size with the `size || 0` default. -/
def entryBodySize (e : HarEntry) : Int := e.response.content.size.getD 0

/-- One step of the `entryMap` loop: a new key is appended (JavaScript
`Map` preserves insertion order), an existing key keeps its position and
keeps its entry unless the new entry has a strictly larger body. -/
def entryMapStep (m : List (String × HarEntry)) (e : HarEntry) : List (String × HarEntry) :=
  match m with
  | [] => [(getEntryKey e, e)]
  | (k, ex) :: rest =>
    if k = getEntryKey e then
      if entryBodySize e > entryBodySize ex then (k, e) :: rest else (k, ex) :: rest
    else (k, ex) :: entryMapStep rest e

/-- The `entryMap` built by the first loop of `deduplicateEntries`. -/
def buildEntryMap (entries : List HarEntry) : List (String × HarEntry) :=
  entries.foldl entryMapStep []

/-- Lookup in the modelled insertion-ordered map (`Map.prototype.get`). -/
def lookupKey (k : String) : List (String × HarEntry) → Option HarEntry
  | [] => none
  | kv :: rest => if kv.1 = k then some kv.2 else lookupKey k rest

/-- The first entry of `e0 :: rest` whose body size attains the running
maximum — the specification-side description of the per-key dedup
winner. -/
def firstLargest (rest : List HarEntry) (e0 : HarEntry) : HarEntry :=
  rest.foldl (fun best x => if entryBodySize x > entryBodySize best then x else best) e0

/-- The fixed method priority table of the output sort. -/
def methodOrder : List String := ["GET", "POST", "PUT", "PATCH", "DELETE"]

/-- The comparator of the output sort: URLs first (`localeCompare`),
then `methodOrder.indexOf` positions (`-1` when absent). -/
def entryCompare (a b : HarEntry) : Int :=
  if a.request.url = b.request.url then
    jsIndexOf methodOrder (jsToUpperCase a.request.method)
      - jsIndexOf methodOrder (jsToUpperCase b.request.method)
  else localeCompare a.request.url b.request.url

/-- The non-strict order induced by the comparator.  `Array.prototype.sort`
with a consistent comparator is a stable sort with respect to it. -/
def entryLE (a b : HarEntry) : Prop := entryCompare a b ≤ 0

instance : DecidableRel entryLE := fun a b =>
  inferInstanceAs (Decidable (entryCompare a b ≤ 0))

/-- Deduplicate entries by key keeping the largest response body, then
sort by URL and method priority (`deduplicateEntries`).  The JavaScript
stable sort is modelled by the stable `List.insertionSort`. -/
def deduplicateEntries (entries : List HarEntry) : List HarEntry :=
  List.insertionSort entryLE ((buildEntryMap entries).map (fun kv => kv.2))

/-- A thrown `new Error(message)`. -/
inductive JsError where
  | mk (message : String)
deriving DecidableEq, Repr

/-- Merge multiple HAR files into one (`mergeHarFiles`): zero files is
the error the spec names `EmptyInputError`, one file is returned
unchanged, otherwise all entries are flattened, deduplicated and
re-sorted under a fresh log header. -/
def mergeHarFiles (harFiles : List HarFile) : Except JsError HarFile :=
  match harFiles with
  | [] => .error (.mk "No HAR files to merge")
  | [h] => .ok h
  | hs =>
    let allEntries := (hs.map (fun h => h.log.entries)).flatten
    .ok
      { log :=
          { version := "1.2"
            creator := { name := "skylight-har2openapi", version := "1.0.0" }
            entries := deduplicateEntries allEntries } }

/-! ### Path normalization (`src/converter/path-normalizer.ts`)

OpenAPI operation objects are modelled by the attributes the normalizer
reads or writes (the `parameters` list); every other attribute of an
operation is carried through untouched and is represented by the opaque
`rest` component, which the embedded functions preserve verbatim. -/

structure ParamSchema where
  type : String
deriving DecidableEq, Repr

/-- An OpenAPI parameter object as produced/read by the normalizer. -/
structure ParameterObject where
  name : String
  «in» : String
  required : Bool
  schema : ParamSchema
deriving DecidableEq, Repr

/-- An OpenAPI operation object: its parameter list plus the opaque rest. -/
structure OperationObject where
  parameters : Option (List ParameterObject)
  rest : Nat
deriving DecidableEq, Repr

/-- The HTTP methods iterated by the normalizer, in source order. -/
inductive HttpMethod where
  | get | post | put | patch | delete | head | options
deriving DecidableEq, Repr

def httpMethods : List HttpMethod :=
  [.get, .post, .put, .patch, .delete, .head, .options]

/-- An OpenAPI path item object: one optional operation per method. -/
structure PathItemObject where
  get : Option OperationObject
  post : Option OperationObject
  put : Option OperationObject
  patch : Option OperationObject
  delete : Option OperationObject
  head : Option OperationObject
  options : Option OperationObject
deriving DecidableEq, Repr

/-- The empty path item. -/
def PathItemObject.empty : PathItemObject :=
  ⟨none, none, none, none, none, none, none⟩

def PathItemObject.getOp (item : PathItemObject) : HttpMethod → Option OperationObject
  | .get => item.get
  | .post => item.post
  | .put => item.put
  | .patch => item.patch
  | .delete => item.delete
  | .head => item.head
  | .options => item.options

def PathItemObject.setOp (item : PathItemObject) :
    HttpMethod → Option OperationObject → PathItemObject
  | .get, op => { item with get := op }
  | .post, op => { item with post := op }
  | .put, op => { item with put := op }
  | .patch, op => { item with patch := op }
  | .delete, op => { item with delete := op }
  | .head, op => { item with head := op }
  | .options, op => { item with options := op }

/-- Global regex replacement without boundary assertions, for the path
patterns (same scanning discipline as `globalReplaceB`). -/
def globalReplace (m : List Char → Option Nat) (repl : List Char) :
    Nat → List Char → List Char
  | _, [] => []
  | 0, l => l
  | fuel + 1, c :: t =>
    match m (c :: t) with
    | some (n + 1) => repl ++ globalReplace m repl fuel ((c :: t).drop (n + 1))
    | _ => c :: globalReplace m repl fuel t

/-- String-level wrapper for `globalReplace`. -/
def replaceAllPat (m : List Char → Option Nat) (repl : String) (s : String) : String :=
  ⟨globalReplace m repl.data (s.data.length + 1) s.data⟩

/-- Character class `[a-f0-9-]` under the `i` flag. -/
def classIdCI (c : Char) : Bool := isHexChar c || c = '-'

/-- Matcher for a pattern `literal([cls]+)` with the `i` flag: the
literal is matched case-insensitively, followed by a maximal non-empty
class run (nothing follows the greedy group, so no backtracking arises). -/
def litClassMatchAt (lit : List Char) (cls : Char → Bool) (l : List Char) : Option Nat :=
  match dropLitsCI lit l with
  | some rest =>
    let run := rest.takeWhile cls
    if run.isEmpty then none else some (lit.length + run.length)
  | none => none

/-- Matcher for the generic UUID segment pattern
`\/([0-9a-f]{8}-[0-9a-f]{4}-[0-9a-f]{4}-[0-9a-f]{4}-[0-9a-f]{12})` with
flag `i`; the match has the fixed length `1 + 36`. -/
def uuidSegMatchAt (l : List Char) : Option Nat :=
  match l with
  | '/' :: rest => if (uuidBodyAt rest).isSome then some 37 else none
  | _ => none

/-- Matcher for the generic numeric segment pattern `\/(\d{5,})`. -/
def numSegMatchAt (l : List Char) : Option Nat :=
  match l with
  | '/' :: rest =>
    let run := rest.takeWhile Char.isDigit
    if 5 ≤ run.length then some (1 + run.length) else none
  | _ => none

/-- The ordered table `PATH_PARAM_PATTERNS` of (matcher, replacement) pairs. -/
def PATH_PARAM_PATTERNS : List ((List Char → Option Nat) × String) :=
  [ (litClassMatchAt "/frames/".data classIdCI, "/frames/{frameId}"),
    (litClassMatchAt "/lists/".data classIdCI, "/lists/{listId}"),
    (litClassMatchAt "/chores/".data classIdCI, "/chores/{choreId}"),
    (litClassMatchAt "/categories/".data classIdCI, "/categories/{categoryId}"),
    (litClassMatchAt "/devices/".data classIdCI, "/devices/{deviceId}"),
    (litClassMatchAt "/rewards/".data classIdCI, "/rewards/{rewardId}"),
    (litClassMatchAt "/reward_points/".data classIdCI, "/reward_points/{rewardPointId}"),
    (litClassMatchAt "/items/".data classIdCI, "/items/{itemId}"),
    (litClassMatchAt "/source_calendars/".data classIdCI, "/source_calendars/{sourceCalendarId}"),
    (litClassMatchAt "/calendar_events/".data classIdCI, "/calendar_events/{calendarEventId}"),
    (uuidSegMatchAt, "/{id}"),
    (numSegMatchAt, "/{id}") ]

/-- Normalize a single path to use parameter placeholders
(`normalizePath`): apply each pattern of the table, in order, globally,
to the working string. -/
def normalizePath (path : String) : String :=
  PATH_PARAM_PATTERNS.foldl (fun normalized pr => replaceAllPat pr.1 pr.2 normalized) path

/-- Scan for the `\{(\w+)\}` tokens of a template, left to right
(the `exec` loop of `extractPathParameters`). -/
def extractParamNamesAux : Nat → List Char → List String
  | 0, _ => []
  | _, [] => []
  | fuel + 1, '{' :: rest =>
    let run := rest.takeWhile isWordChar
    if run.isEmpty then extractParamNamesAux fuel rest
    else
      match rest.drop run.length with
      | '}' :: after => String.mk run :: extractParamNamesAux fuel after
      | _ => extractParamNamesAux fuel rest
  | fuel + 1, _ :: rest => extractParamNamesAux fuel rest

/-- Extract path parameters from a normalized path
(`extractPathParameters`): one required, string-typed, path-located
parameter per `{name}` token. -/
def extractPathParameters (path : String) : List ParameterObject :=
  (extractParamNamesAux (path.data.length + 1) path.data).map (fun paramName =>
    { name := paramName, «in» := "path", required := true, schema := { type := "string" } })

/-- Per-method body of the `addPathParameters` loop: for a declared
operation, prepend the template parameters the operation does not
already declare by name. -/
def addPathParametersStep (pathParams : List ParameterObject)
    (result : PathItemObject) (method : HttpMethod) : PathItemObject :=
  match result.getOp method with
  | some operation =>
    let existingParams := operation.parameters.getD []
    let existingParamNames := existingParams.map (fun p => p.name)
    let newParams := pathParams.filter (fun p => !(existingParamNames.contains p.name))
    result.setOp method (some { operation with parameters := some (newParams ++ existingParams) })
  | none => result

/-- Add path parameters to a path item (`addPathParameters`): for every
operation the item declares, prepend the template's parameters that the
operation does not already declare by name. -/
def addPathParameters (pathItem : PathItemObject) (normalizedPath : String) : PathItemObject :=
  let pathParams := extractPathParameters normalizedPath
  if pathParams.isEmpty then pathItem
  else httpMethods.foldl (addPathParametersStep pathParams) pathItem

/-- Per-method body of the `mergePathItems` loop: take the incoming
operation only for a method the existing item lacks. -/
def mergePathItemsStep (existing incoming : PathItemObject)
    (result : PathItemObject) (method : HttpMethod) : PathItemObject :=
  match incoming.getOp method, existing.getOp method with
  | some inc, none => result.setOp method (some inc)
  | _, _ => result

/-- Merge two path items that normalized to the same template
(`mergePathItems`): per method, the existing operation wins; the
incoming one is taken only for methods the existing item lacks. -/
def mergePathItems (existing incoming : PathItemObject) : PathItemObject :=
  httpMethods.foldl (mergePathItemsStep existing incoming) existing

def lookupPathItem (k : String) : List (String × PathItemObject) → Option PathItemObject
  | [] => none
  | kv :: rest => if kv.1 = k then some kv.2 else lookupPathItem k rest

def updatePathItem (k : String) (v : PathItemObject) :
    List (String × PathItemObject) → List (String × PathItemObject)
  | [] => []
  | kv :: rest => if kv.1 = k then (kv.1, v) :: rest else kv :: updatePathItem k v rest

/-- Normalize all paths of a spec (`normalizeOpenApiPaths`): the paths
mapping is an insertion-ordered association list, as a JavaScript object
with string keys.  A template seen for the first time gets the item with
path parameters injected; a template collision merges the incoming item
into the existing one (which keeps its position), without injecting
parameters into the newly contributed operations.  Absent (`undefined`)
path items, skipped by the source, are not represented. -/
def normalizeOpenApiPaths (paths : List (String × PathItemObject)) :
    List (String × PathItemObject) :=
  paths.foldl
    (fun normalizedPaths pp =>
      let normalizedPath := normalizePath pp.1
      match lookupPathItem normalizedPath normalizedPaths with
      | some existing =>
        updatePathItem normalizedPath (mergePathItems existing pp.2) normalizedPaths
      | none => normalizedPaths ++ [(normalizedPath, addPathParameters pp.2 normalizedPath)])
    []

/-! ### Concrete schema nodes used by witnesses and counterexamples -/

/-- A plain string schema node, as inferred for a format-free string. -/
def exampleStringSchema : JSONSchema := stringSchemaWith none none none

/-- A plain integer schema node, as inferred for an integral number. -/
def exampleIntegerSchema : JSONSchema :=
  .mk (some (.single "integer")) none none none none none none none none none

/-! ## Theorems -/

/-- Structural induction principle for `Json` with elementwise
hypotheses for the nested lists. -/
theorem Json.ind (P : Json → Prop)
    (h0 : P .null) (h1 : ∀ b, P (.bool b)) (h2 : ∀ n, P (.num n)) (h3 : ∀ s, P (.str s))
    (h4 : ∀ items, (∀ x ∈ items, P x) → P (.arr items))
    (h5 : ∀ fields, (∀ kv ∈ fields, P kv.2) → P (.obj fields)) :
    ∀ j, P j := fun j =>
  match j with
  | .null => h0
  | .bool b => h1 b
  | .num n => h2 n
  | .str s => h3 s
  | .arr items => h4 items (fun x hx => Json.ind P h0 h1 h2 h3 h4 h5 x)
  | .obj fields => h5 fields (fun kv hkv => Json.ind P h0 h1 h2 h3 h4 h5 kv.2)
termination_by j => sizeOf j
decreasing_by
  · have := List.sizeOf_lt_of_mem hx
    simp only [Json.arr.sizeOf_spec]
    omega
  · have h := List.sizeOf_lt_of_mem hkv
    obtain ⟨k, v⟩ := kv
    simp only [Json.obj.sizeOf_spec, Prod.mk.sizeOf_spec] at h ⊢
    omega

/-- C8: dedup/merge of zero collections raises the empty-input error,
and of exactly one collection returns it unchanged, with no
deduplication or resorting applied. -/
theorem mergeHarFiles_empty_and_singleton :
    mergeHarFiles [] = .error (.mk "No HAR files to merge")
      ∧ ∀ h : HarFile, mergeHarFiles [h] = .ok h :=
  ⟨rfl, fun _ => rfl⟩

/-- C10: for form-encoded POST params, redaction maps every parameter
pointwise, independently of its name: a non-empty string value becomes
the literal `REDACTED`, an absent or empty value becomes `undefined`;
names and metadata are preserved. -/
theorem redactPostData_params_spec (pd : HarPostData) (ps : List HarParam)
    (hps : pd.params = some ps) :
    ∃ ps' : List HarParam,
      (redactPostData (some pd)).bind HarPostData.params = some ps'
        ∧ List.Forall₂ (fun p p' : HarParam =>
            p'.name = p.name ∧ p'.fileName = p.fileName ∧ p'.contentType = p.contentType
              ∧ ((p.value = none ∨ p.value = some "") → p'.value = none)
              ∧ (∀ v, p.value = some v → v ≠ "" → p'.value = some "REDACTED")) ps ps' := by
  refine ⟨ps.map (fun param =>
    { param with
      value :=
        match param.value with
        | some v => if v = "" then none else some "REDACTED"
        | none => none }), ?_, ?_⟩
  · simp [redactPostData, hps]
  · clear hps
    induction ps with
    | nil => simp
    | cons p pt ih =>
      refine List.Forall₂.cons ?_ ih
      refine ⟨rfl, rfl, rfl, ?_, ?_⟩
      · rintro (hv | hv) <;> simp [hv]
      · intro v hv hne
        simp [hv, hne]

/-- Witness for C10 at a concrete POST data value. -/
theorem redactPostData_params_spec_witness :
    (⟨"application/x-www-form-urlencoded",
        some [⟨"user", some "alice", none, none, none⟩, ⟨"note", some "", none, none, none⟩],
        none, none⟩ : HarPostData).params
      = some [⟨"user", some "alice", none, none, none⟩, ⟨"note", some "", none, none, none⟩]
    ∧ ∃ ps' : List HarParam,
      (redactPostData (some ⟨"application/x-www-form-urlencoded",
          some [⟨"user", some "alice", none, none, none⟩, ⟨"note", some "", none, none, none⟩],
          none, none⟩)).bind HarPostData.params = some ps'
        ∧ List.Forall₂ (fun p p' : HarParam =>
            p'.name = p.name ∧ p'.fileName = p.fileName ∧ p'.contentType = p.contentType
              ∧ ((p.value = none ∨ p.value = some "") → p'.value = none)
              ∧ (∀ v, p.value = some v → v ≠ "" → p'.value = some "REDACTED"))
          [⟨"user", some "alice", none, none, none⟩, ⟨"note", some "", none, none, none⟩] ps' :=
  ⟨rfl, redactPostData_params_spec _ _ rfl⟩

/-- C3 counterexample: the field `email` is in the sensitive set, its
value `5` is not a string, yet redaction replaces it with the email
placeholder instead of leaving it unchanged. -/
theorem getRedactedValue_changes_nonstring :
    SENSITIVE_BODY_FIELDS.contains (jsToLowerCase "email") = true
      ∧ redactBody (.obj [("email", .num 5)]) = .obj [("email", .str "user@example.com")]
      ∧ Json.num 5 ≠ Json.str "user@example.com" :=
  ⟨by decide, rfl, by simp⟩

/-- C3 (amended): for a sensitive field, the placeholder is selected by
substring match on the lowercased field name in the order email, phone,
url, token/key/secret; when none of those substrings occurs, a string
value becomes the generic `REDACTED` and only then is a non-string value
left unchanged.  The substring-selected placeholders apply regardless of
the original value's type. -/
theorem getRedactedValue_spec (name : String) (v : Json) :
    (jsIncludes (jsToLowerCase name) "email" = true →
      getRedactedValue name v = .str REDACTION_PLACEHOLDERS.email)
    ∧ (jsIncludes (jsToLowerCase name) "email" = false →
        jsIncludes (jsToLowerCase name) "phone" = true →
        getRedactedValue name v = .str REDACTION_PLACEHOLDERS.phone)
    ∧ (jsIncludes (jsToLowerCase name) "email" = false →
        jsIncludes (jsToLowerCase name) "phone" = false →
        jsIncludes (jsToLowerCase name) "url" = true →
        getRedactedValue name v = .str REDACTION_PLACEHOLDERS.url)
    ∧ (jsIncludes (jsToLowerCase name) "email" = false →
        jsIncludes (jsToLowerCase name) "phone" = false →
        jsIncludes (jsToLowerCase name) "url" = false →
        (jsIncludes (jsToLowerCase name) "token" || jsIncludes (jsToLowerCase name) "key"
          || jsIncludes (jsToLowerCase name) "secret") = true →
        getRedactedValue name v = .str REDACTION_PLACEHOLDERS.token)
    ∧ (jsIncludes (jsToLowerCase name) "email" = false →
        jsIncludes (jsToLowerCase name) "phone" = false →
        jsIncludes (jsToLowerCase name) "url" = false →
        (jsIncludes (jsToLowerCase name) "token" || jsIncludes (jsToLowerCase name) "key"
          || jsIncludes (jsToLowerCase name) "secret") = false →
        (∀ s, v = .str s → getRedactedValue name v = .str REDACTION_PLACEHOLDERS.string)
          ∧ ((∀ s, v ≠ .str s) → getRedactedValue name v = v))
    ∧ (SENSITIVE_BODY_FIELDS.contains (jsToLowerCase name) = true →
        redactBody (.obj [(name, v)]) = .obj [(name, getRedactedValue name v)]) := by
  refine ⟨?_, ?_, ?_, ?_, ?_, ?_⟩
  · intro h1
    simp [getRedactedValue, h1]
  · intro h1 h2
    simp [getRedactedValue, h1, h2]
  · intro h1 h2 h3
    simp [getRedactedValue, h1, h2, h3]
  · intro h1 h2 h3 h4
    simp [getRedactedValue, h1, h2, h3, h4]
  · intro h1 h2 h3 h4
    constructor
    · intro s hs
      subst hs
      simp [getRedactedValue, h1, h2, h3, h4]
    · intro hns
      cases v with
      | str s => exact absurd rfl (hns s)
      | null => simp [getRedactedValue, h1, h2, h3, h4]
      | bool b => simp [getRedactedValue, h1, h2, h3, h4]
      | num n => simp [getRedactedValue, h1, h2, h3, h4]
      | arr items => simp [getRedactedValue, h1, h2, h3, h4]
      | obj fields => simp [getRedactedValue, h1, h2, h3, h4]
  · intro hs
    simp at hs
    simp [redactBody, redactObject, hs]

/-- Witness for C3 at concrete fields: `api_key` selects the token
placeholder even for a numeric value, and `password` (no placeholder
substring) passes a numeric value through unchanged. -/
theorem getRedactedValue_spec_witness :
    getRedactedValue "api_key" (.num 3) = .str REDACTION_PLACEHOLDERS.token
      ∧ getRedactedValue "password" (.num 3) = .num 3 :=
  ⟨(getRedactedValue_spec "api_key" (.num 3)).2.2.2.1 (by decide) (by decide) (by decide)
      (by decide),
   ((getRedactedValue_spec "password" (.num 3)).2.2.2.2.1 (by decide) (by decide) (by decide)
      (by decide)).2 (fun s h => by simp at h)⟩

/-- C9: string format inference applies its rules first-match-wins in
the order date, date-time, uuid, uri, hex-color, time, email, with a
plain string schema when nothing matches; in particular the four spec
examples infer date, date-time, email and plain string. -/
theorem inferStringSchema_spec :
    inferStringSchema "2024-03-15" = stringSchemaWith (some "date") none none
    ∧ inferStringSchema "2024-03-15T10:00:00Z" = stringSchemaWith (some "date-time") none none
    ∧ inferStringSchema "a@b.com" = stringSchemaWith (some "email") none none
    ∧ inferStringSchema "not-a-date-2024" = stringSchemaWith none none none
    ∧ (∀ v, dateTest v = true → inferStringSchema v = stringSchemaWith (some "date") none none)
    ∧ (∀ v, dateTest v = false → dateTimeTest v = true →
        inferStringSchema v = stringSchemaWith (some "date-time") none none)
    ∧ (∀ v, dateTest v = false → dateTimeTest v = false → uuidAnchoredTest v = true →
        inferStringSchema v = stringSchemaWith (some "uuid") none none)
    ∧ (∀ v, dateTest v = false → dateTimeTest v = false → uuidAnchoredTest v = false →
        uriTest v = true → inferStringSchema v = stringSchemaWith (some "uri") none none)
    ∧ (∀ v, dateTest v = false → dateTimeTest v = false → uuidAnchoredTest v = false →
        uriTest v = false → hexColorTest v = true →
        inferStringSchema v = stringSchemaWith none (some "Hex color") (some "^#?[0-9A-Fa-f]{6}$"))
    ∧ (∀ v, dateTest v = false → dateTimeTest v = false → uuidAnchoredTest v = false →
        uriTest v = false → hexColorTest v = false → timeTest v = true →
        inferStringSchema v = stringSchemaWith (some "time") (some "Time in HH:MM format") none)
    ∧ (∀ v, dateTest v = false → dateTimeTest v = false → uuidAnchoredTest v = false →
        uriTest v = false → hexColorTest v = false → timeTest v = false →
        emailAnchoredTest v = true →
        inferStringSchema v = stringSchemaWith (some "email") none none)
    ∧ (∀ v, dateTest v = false → dateTimeTest v = false → uuidAnchoredTest v = false →
        uriTest v = false → hexColorTest v = false → timeTest v = false →
        emailAnchoredTest v = false →
        inferStringSchema v = stringSchemaWith none none none) := by
  refine ⟨rfl, rfl, rfl, rfl, ?_, ?_, ?_, ?_, ?_, ?_, ?_, ?_⟩
  · intro v h1
    simp [inferStringSchema, h1]
  · intro v h1 h2
    simp [inferStringSchema, h1, h2]
  · intro v h1 h2 h3
    simp [inferStringSchema, h1, h2, h3]
  · intro v h1 h2 h3 h4
    simp [inferStringSchema, h1, h2, h3, h4]
  · intro v h1 h2 h3 h4 h5
    simp [inferStringSchema, h1, h2, h3, h4, h5]
  · intro v h1 h2 h3 h4 h5 h6
    simp [inferStringSchema, h1, h2, h3, h4, h5, h6]
  · intro v h1 h2 h3 h4 h5 h6 h7
    simp [inferStringSchema, h1, h2, h3, h4, h5, h6, h7]
  · intro v h1 h2 h3 h4 h5 h6 h7
    simp [inferStringSchema, h1, h2, h3, h4, h5, h6, h7]

/-- Witness for C9: the date rule fires on another concrete input. -/
theorem inferStringSchema_spec_witness :
    dateTest "1999-12-31" = true
      ∧ inferStringSchema "1999-12-31" = stringSchemaWith (some "date") none none :=
  ⟨by decide, inferStringSchema_spec.2.2.2.2.1 "1999-12-31" (by decide)⟩

/-- C1 counterexample: merging two string nodes and one integer node
yields `oneOf` over the three original nodes — two members of base type
string, not one (possibly merged) member per type group. -/
theorem mergeSchemas_multiType_not_grouped :
    mergeSchemas [exampleStringSchema, exampleStringSchema, exampleIntegerSchema]
      = .mk none none none none none none none none none
          (some [exampleStringSchema, exampleStringSchema, exampleIntegerSchema])
    ∧ typesOf [exampleStringSchema, exampleStringSchema, exampleIntegerSchema]
        = ["string", "integer"]
    ∧ ([exampleStringSchema, exampleStringSchema, exampleIntegerSchema].filter
          (fun s => s.type = some (.single "string"))).length = 2 :=
  ⟨rfl, by decide, by decide⟩

/-- C1 (amended): when at least two schemas are merged and more than one
distinct base type appears among them, `mergeSchemas` returns a `oneOf`
union node wrapping the original input list verbatim — no input (and so
no type) is dropped, but inputs are not grouped or merged per type. -/
theorem mergeSchemas_multiType_oneOf (a b : JSONSchema) (rest : List JSONSchema)
    (h : 2 ≤ (typesOf (a :: b :: rest)).length) :
    mergeSchemas (a :: b :: rest)
      = .mk none none none none none none none none none (some (a :: b :: rest)) := by
  show mergeSchemasF (schemaSizeList (a :: b :: rest) + 1) (a :: b :: rest) = _
  rcases ht : typesOf (a :: b :: rest) with _ | ⟨t1, _ | ⟨t2, ts⟩⟩
  · rw [ht] at h
    simp at h
  · rw [ht] at h
    simp at h
  · simp [mergeSchemasF, ht]

/-- Witness for C1 at a concrete two-type input. -/
theorem mergeSchemas_multiType_oneOf_witness :
    2 ≤ (typesOf [exampleStringSchema, exampleIntegerSchema]).length
      ∧ mergeSchemas [exampleStringSchema, exampleIntegerSchema]
          = .mk none none none none none none none none none
              (some [exampleStringSchema, exampleIntegerSchema]) :=
  ⟨by decide, mergeSchemas_multiType_oneOf exampleStringSchema exampleIntegerSchema [] (by decide)⟩

/-- Shapes of non-composite JSON values are leaves. -/
theorem jsonShape_of_not_composite (v : Json) (h : isCompositeJson v = false) :
    jsonShape v = .leaf := by
  cases v <;> first | rfl | simp [isCompositeJson] at h

/-- A sensitive-field replacement preserves the shape provided a
placeholder-selecting name only meets non-composite values. -/
theorem jsonShape_getRedactedValue (key : String) (v : Json)
    (h : sensitiveNameHasPlaceholder (jsToLowerCase key) = true → isCompositeJson v = false) :
    jsonShape (getRedactedValue key v) = jsonShape v := by
  cases hp : sensitiveNameHasPlaceholder (jsToLowerCase key) with
  | true =>
    have hleaf : jsonShape v = .leaf := jsonShape_of_not_composite v (h hp)
    cases h1 : jsIncludes (jsToLowerCase key) "email" <;>
      cases h2 : jsIncludes (jsToLowerCase key) "phone" <;>
        cases h3 : jsIncludes (jsToLowerCase key) "url" <;>
          cases h4 : (jsIncludes (jsToLowerCase key) "token"
              || jsIncludes (jsToLowerCase key) "key"
              || jsIncludes (jsToLowerCase key) "secret") <;>
            simp [getRedactedValue, h1, h2, h3, h4, hleaf] <;>
            first
            | rfl
            | (cases v <;> simp_all [jsonShape])
  | false =>
    simp only [sensitiveNameHasPlaceholder, Bool.or_eq_false_iff] at hp
    obtain ⟨⟨⟨⟨⟨h1, h2⟩, h3⟩, h4⟩, h5⟩, h6⟩ := hp
    simp only [getRedactedValue, h1, h2, h3, h4, h5, h6]
    cases v <;> rfl

/-- An ID-field replacement always preserves the shape. -/
theorem jsonShape_redactIdValue (v : Json) :
    jsonShape (redactIdValue v) = jsonShape v := by
  cases v <;> simp [redactIdValue, jsonShape]
  split <;> rfl

/-- Elementwise shape preservation for arrays. -/
theorem redactArr_shape : ∀ (items : List Json),
    (∀ x ∈ items, shapeSafe x = true → jsonShape (redactBody x) = jsonShape x) →
    shapeSafeList items = true →
    jsonShapeList (redactArr items) = jsonShapeList items
  | [], _, _ => rfl
  | x :: xs, ih, hs => by
    simp only [shapeSafeList, Bool.and_eq_true] at hs
    simp only [redactArr, jsonShapeList]
    rw [ih x (by simp) hs.1,
      redactArr_shape xs (fun y hy => ih y (by simp [hy])) hs.2]

/-- Fieldwise shape preservation for objects. -/
theorem redactObject_shape : ∀ (fields : List (String × Json)),
    (∀ kv ∈ fields, shapeSafe kv.2 = true → jsonShape (redactBody kv.2) = jsonShape kv.2) →
    shapeSafeFields fields = true →
    jsonShapeFields (redactObject fields) = jsonShapeFields fields
  | [], _, _ => rfl
  | (key, value) :: rest, ih, hs => by
    simp only [shapeSafeFields, Bool.and_eq_true] at hs
    obtain ⟨hhead, htail⟩ := hs
    simp only [redactObject, jsonShapeFields]
    rw [redactObject_shape rest (fun y hy => ih y (by simp [hy])) htail]
    simp only [List.cons.injEq, Prod.mk.injEq, and_true, true_and]
    by_cases hSens : SENSITIVE_BODY_FIELDS.contains (jsToLowerCase key) = true
    · simp only [hSens, if_true] at hhead ⊢
      refine jsonShape_getRedactedValue key value (fun hp => ?_)
      simp only [hp, if_true] at hhead
      simpa using hhead
    · replace hSens := Bool.eq_false_iff.mpr hSens
      simp only [hSens, Bool.false_eq_true, if_false] at hhead ⊢
      by_cases hId : ID_BODY_FIELDS.contains (jsToLowerCase key) = true
      · simp only [hId, if_true]
        exact jsonShape_redactIdValue value
      · replace hId := Bool.eq_false_iff.mpr hId
        simp only [hId, Bool.false_eq_true, if_false] at hhead ⊢
        exact ih (key, value) (by simp) hhead

/-- C2 counterexample: a sensitive field named `email` holding an object
is collapsed to a string placeholder, so the nesting depth shrinks and
the inner key set disappears — redaction is not shape-preserving on
every body. -/
theorem redactBody_not_shape_preserving :
    redactBody (.obj [("email", .obj [("x", .num 1)])])
      = .obj [("email", .str "user@example.com")]
    ∧ jsonDepth (.obj [("email", .obj [("x", .num 1)])]) = 3
    ∧ jsonDepth (redactBody (.obj [("email", .obj [("x", .num 1)])])) = 2 :=
  ⟨rfl, by decide, by decide⟩

/-- C2 (amended): body redaction is shape-preserving — the key set of
every object, the length of every array, the nesting depth are
unchanged and only leaf values change — for every body in which no
sensitive field with a placeholder-selecting name (one containing
email/phone/url/token/key/secret) holds an object or array value; such
fields are otherwise collapsed to a string placeholder. -/
theorem redactBody_shape_preserving (b : Json) (h : shapeSafe b = true) :
    jsonShape (redactBody b) = jsonShape b := by
  refine Json.ind (fun j => shapeSafe j = true → jsonShape (redactBody j) = jsonShape j)
    (fun _ => rfl) (fun _ _ => rfl) (fun _ _ => rfl) (fun _ _ => rfl)
    ?_ ?_ b h
  · intro items ih hsafe
    have hs : shapeSafeList items = true := hsafe
    simp only [redactBody, jsonShape]
    rw [redactArr_shape items ih hs]
  · intro fields ih hsafe
    have hs : shapeSafeFields fields = true := hsafe
    simp only [redactBody, jsonShape]
    rw [redactObject_shape fields ih hs]

/-- Witness for C2 at a concrete body mixing sensitive, ID and plain
fields. -/
theorem redactBody_shape_preserving_witness :
    shapeSafe (.obj [("email", .str "a@b.com"), ("note", .arr [.num 1, .str "x"]),
        ("id", .str "abc"), ("password", .obj [("q", .num 2)])]) = true
    ∧ jsonShape (redactBody (.obj [("email", .str "a@b.com"), ("note", .arr [.num 1, .str "x"]),
        ("id", .str "abc"), ("password", .obj [("q", .num 2)])]))
      = jsonShape (.obj [("email", .str "a@b.com"), ("note", .arr [.num 1, .str "x"]),
        ("id", .str "abc"), ("password", .obj [("q", .num 2)])]) :=
  ⟨by decide, redactBody_shape_preserving _ (by decide)⟩

/-- A literal prefix is consumed exactly. -/
theorem dropLits_append_self : ∀ (lit l : List Char), dropLits lit (lit ++ l) = some l
  | [], _ => rfl
  | c :: cs, l => by simp [dropLits, dropLits_append_self cs l]

/-- The URL model strips the query: a well-formed `scheme host path`
URL, followed by an optional `?query`, parses to the origin and the
pathname, independently of the query. -/
theorem parseUrl_origin_path (scheme host p query : String)
    (hs : scheme = "http://" ∨ scheme = "https://")
    (hh : urlHostOk host = true) (hp : urlPathOk p = true)
    (hq : query = "" ∨ ∃ qr : String, query = "?" ++ qr) :
    parseUrlOriginPath (scheme ++ host ++ p ++ query) = some (scheme ++ host, p) := by
  rw [urlHostOk, Bool.and_eq_true] at hh
  obtain ⟨hne, hhost⟩ := hh
  rw [urlPathOk, Bool.and_eq_true] at hp
  obtain ⟨hphead, hpall⟩ := hp
  obtain ⟨pd, hpd⟩ : ∃ pd, p.data = '/' :: pd := by
    rcases hpp : p.data with _ | ⟨c, t⟩ <;> rw [hpp] at hphead <;> simp at hphead
    exact ⟨t, by rw [hphead]⟩
  have hhostmem : ∀ c ∈ host.data, (c ≠ '/' && c ≠ '?' && c ≠ '#') = true := by
    simpa [List.all_eq_true] using hhost
  have hpmem : ∀ c ∈ p.data, (c ≠ '?' && c ≠ '#') = true := by
    simpa [List.all_eq_true] using hpall
  have hqdata : query.data = [] ∨ ∃ qd, query.data = '?' :: qd := by
    rcases hq with hq | ⟨qr, hq⟩ <;> subst hq
    · exact Or.inl rfl
    · exact Or.inr ⟨qr.data, rfl⟩
  have hqtake : (p.data ++ query.data).takeWhile (fun c => c ≠ '?' && c ≠ '#') = p.data := by
    rw [List.takeWhile_append_of_pos hpmem]
    rcases hqdata with hq | ⟨qd, hq⟩ <;> rw [hq] <;> simp [List.takeWhile_cons]
  have hne' : host.data.isEmpty = false := by
    cases hxe : host.data.isEmpty
    · rfl
    · rw [hxe] at hne
      simp at hne
  have htake0 : List.takeWhile (fun c => c ≠ '/' && c ≠ '?' && c ≠ '#')
      (p.data ++ query.data) = [] := by
    rw [hpd, List.cons_append]
    simp [List.takeWhile_cons]
  have hpe : p.data.isEmpty = false := by
    rw [hpd]
    rfl
  rcases hs with hs | hs <;> subst hs
  · have hsplit : ("http://" ++ host ++ p ++ query).data
        = "http://".data ++ (host.data ++ (p.data ++ query.data)) := by
      simp
    rw [parseUrlOriginPath, hsplit,
      show ∀ l, dropLits "https://".data ("http://".data ++ l) = none from fun _ => rfl,
      dropLits_append_self]
    dsimp only
    rw [List.takeWhile_append_of_pos hhostmem, htake0]
    simp only [List.append_nil, hne', Bool.false_eq_true, if_false, List.drop_left, hqtake,
      hpe]
    rfl
  · have hsplit : ("https://" ++ host ++ p ++ query).data
        = "https://".data ++ (host.data ++ (p.data ++ query.data)) := by
      simp
    rw [parseUrlOriginPath, hsplit, dropLits_append_self]
    dsimp only
    rw [List.takeWhile_append_of_pos hhostmem, htake0]
    simp only [List.append_nil, hne', Bool.false_eq_true, if_false, List.drop_left, hqtake,
      hpe]
    rfl

/-- C5 counterexample: the dedup key is not case-normalized on the
method — two records that differ only in the letter case of the method
get different keys. -/
theorem getEntryKey_method_case_sensitive :
    getEntryKey ⟨⟨"get", "https://x/a"⟩, ⟨200, ⟨some 5, "t"⟩⟩⟩
      ≠ getEntryKey ⟨⟨"GET", "https://x/a"⟩, ⟨200, ⟨some 5, "t"⟩⟩⟩ := by
  decide

/-- C5 (amended): the dedup key is the triple of the method (verbatim,
not case-normalized), the URL with the query stripped, and the status:
records differing only in the query string (including one with no query
at all) get identical keys when method and status agree. -/
theorem getEntryKey_strips_query (m : String) (st : Int) (c1 c2 c3 : HarContent)
    (scheme host p q1 q2 : String)
    (hs : scheme = "http://" ∨ scheme = "https://")
    (hh : urlHostOk host = true) (hp : urlPathOk p = true) :
    getEntryKey ⟨⟨m, scheme ++ host ++ p ++ ("?" ++ q1)⟩, ⟨st, c1⟩⟩
        = getEntryKey ⟨⟨m, scheme ++ host ++ p ++ ("?" ++ q2)⟩, ⟨st, c2⟩⟩
      ∧ getEntryKey ⟨⟨m, scheme ++ host ++ p ++ ""⟩, ⟨st, c3⟩⟩
        = getEntryKey ⟨⟨m, scheme ++ host ++ p ++ ("?" ++ q1)⟩, ⟨st, c1⟩⟩ := by
  constructor
  · show getEntryKey _ = _
    rw [getEntryKey, getEntryKey]
    simp only [parseUrl_origin_path scheme host p ("?" ++ q1) hs hh hp (Or.inr ⟨q1, rfl⟩),
      parseUrl_origin_path scheme host p ("?" ++ q2) hs hh hp (Or.inr ⟨q2, rfl⟩)]
  · rw [getEntryKey, getEntryKey]
    simp only [parseUrl_origin_path scheme host p "" hs hh hp (Or.inl rfl),
      parseUrl_origin_path scheme host p ("?" ++ q1) hs hh hp (Or.inr ⟨q1, rfl⟩)]

/-- Witness for C5 at the spec's concrete URLs `https://x/a?b=1` and
`https://x/a?b=2`. -/
theorem getEntryKey_strips_query_witness :
    urlHostOk "x" = true ∧ urlPathOk "/a" = true
      ∧ getEntryKey ⟨⟨"GET", "https://" ++ "x" ++ "/a" ++ ("?" ++ "b=1")⟩, ⟨200, ⟨some 5, "t"⟩⟩⟩
          = getEntryKey ⟨⟨"GET", "https://" ++ "x" ++ "/a" ++ ("?" ++ "b=2")⟩, ⟨200, ⟨some 5, "t"⟩⟩⟩ :=
  ⟨by decide, by decide,
    (getEntryKey_strips_query "GET" 200 ⟨some 5, "t"⟩ ⟨some 5, "t"⟩ ⟨some 5, "t"⟩
      "https://" "x" "/a" "b=1" "b=2" (Or.inr rfl) (by decide) (by decide)).1⟩

/-- One `entryMap` step changes only the binding of the incoming entry's
key: it creates it, or keeps/replaces the bound entry by the
larger-body-wins rule. -/
theorem lookupKey_entryMapStep (m : List (String × HarEntry)) (e : HarEntry) (k : String) :
    lookupKey k (entryMapStep m e)
      = if getEntryKey e = k then
          match lookupKey k m with
          | none => some e
          | some ex => if entryBodySize e > entryBodySize ex then some e else some ex
        else lookupKey k m := by
  induction m with
  | nil =>
    by_cases hk : getEntryKey e = k <;> simp [entryMapStep, lookupKey, hk]
  | cons kv rest ih =>
    obtain ⟨k2, ex⟩ := kv
    simp only [entryMapStep]
    by_cases h2 : k2 = getEntryKey e
    · subst h2
      rw [if_pos rfl]
      by_cases hgt : entryBodySize e > entryBodySize ex
      · rw [if_pos hgt]
        by_cases hk : getEntryKey e = k
        · simp [lookupKey, hk, hgt]
        · simp [lookupKey, hk]
      · rw [if_neg hgt]
        by_cases hk : getEntryKey e = k
        · simp [lookupKey, hk, hgt]
        · simp [lookupKey, hk]
    · rw [if_neg h2]
      by_cases hk : k2 = k
      · subst hk
        have hek : ¬ (getEntryKey e = k2) := fun h => h2 h.symm
        simp [lookupKey, hek]
      · simp [lookupKey, hk, ih]

/-- Over the whole fold, the binding of key `k` is the per-key
larger-body-wins fold over the subsequence of entries with key `k`. -/
theorem lookupKey_foldl (es : List HarEntry) : ∀ (m : List (String × HarEntry)) (k : String),
    lookupKey k (es.foldl entryMapStep m)
      = (es.filter (fun e => getEntryKey e == k)).foldl
          (fun cur e =>
            match cur with
            | none => some e
            | some ex => if entryBodySize e > entryBodySize ex then some e else some ex)
          (lookupKey k m) := by
  induction es with
  | nil =>
    intro m k
    rfl
  | cons e es ih =>
    intro m k
    rw [List.foldl_cons, ih (entryMapStep m e) k, lookupKey_entryMapStep]
    by_cases hk : getEntryKey e = k
    · rw [if_pos hk, List.filter_cons_of_pos (by simp [hk]), List.foldl_cons]
    · rw [if_neg hk, List.filter_cons_of_neg (by simp [hk])]

/-- Folding the larger-body-wins step from a present accumulator is the
plain running-maximum fold. -/
theorem foldl_winner_some : ∀ (g : List HarEntry) (e0 : HarEntry),
    g.foldl
      (fun cur e =>
        match cur with
        | none => some e
        | some ex => if entryBodySize e > entryBodySize ex then some e else some ex)
      (some e0)
    = some (firstLargest g e0)
  | [], _ => rfl
  | x :: xs, e0 => by
    rw [List.foldl_cons, firstLargest, List.foldl_cons]
    by_cases hgt : entryBodySize x > entryBodySize e0 <;>
      simp only [hgt, if_true, if_false] <;>
      exact foldl_winner_some xs _

/-- The running maximum is the first element attaining the maximal body
size: everything before it is strictly smaller, everything is at most
it. -/
theorem firstLargest_spec : ∀ (rest : List HarEntry) (e0 : HarEntry),
    ∃ pre post, e0 :: rest = pre ++ firstLargest rest e0 :: post
      ∧ (∀ x ∈ pre, entryBodySize x < entryBodySize (firstLargest rest e0))
      ∧ (∀ x ∈ e0 :: rest, entryBodySize x ≤ entryBodySize (firstLargest rest e0))
  | [], e0 => ⟨[], [], rfl, by simp, by simp [firstLargest]⟩
  | x :: rs, e0 => by
    by_cases hgt : entryBodySize x > entryBodySize e0
    · obtain ⟨pre, post, hsplit, hpre, hall⟩ := firstLargest_spec rs x
      have hw : firstLargest (x :: rs) e0 = firstLargest rs x := by
        rw [firstLargest, List.foldl_cons, if_pos hgt]
        rfl
      rw [hw]
      refine ⟨e0 :: pre, post, ?_, ?_, ?_⟩
      · rw [List.cons_append, ← hsplit]
      · intro y hy
        rcases List.mem_cons.mp hy with hy | hy
        · subst hy
          exact lt_of_lt_of_le hgt (hall x (by simp))
        · exact hpre y hy
      · intro y hy
        rcases List.mem_cons.mp hy with hy | hy
        · subst hy
          exact le_of_lt (lt_of_lt_of_le hgt (hall x (by simp)))
        · exact hall y hy
    · obtain ⟨pre, post, hsplit, hpre, hall⟩ := firstLargest_spec rs e0
      have hw : firstLargest (x :: rs) e0 = firstLargest rs e0 := by
        rw [firstLargest, List.foldl_cons, if_neg hgt]
        rfl
      rw [hw]
      have hxle : entryBodySize x ≤ entryBodySize e0 := le_of_not_lt hgt
      rcases pre with _ | ⟨p0, pre'⟩
      · simp only [List.nil_append] at hsplit
        have he0 : e0 = firstLargest rs e0 := (List.cons.injEq _ _ _ _ ▸ hsplit).1
        have hrs : rs = post := (List.cons.injEq _ _ _ _ ▸ hsplit).2
        refine ⟨[], x :: post, ?_, by simp, ?_⟩
        · rw [List.nil_append, ← he0, ← hrs]
        · intro y hy
          rcases List.mem_cons.mp hy with hy | hy
          · rw [hy]
            exact hall e0 (by simp)
          · rcases List.mem_cons.mp hy with hy | hy
            · rw [hy]
              exact hxle.trans (hall e0 (by simp))
            · exact hall y (by simp [hy])
      · rw [List.cons_append] at hsplit
        have he0 : e0 = p0 := (List.cons.injEq _ _ _ _ ▸ hsplit).1
        have hrs : rs = pre' ++ firstLargest rs e0 :: post := (List.cons.injEq _ _ _ _ ▸ hsplit).2
        refine ⟨e0 :: x :: pre', post, ?_, ?_, ?_⟩
        · rw [List.cons_append, List.cons_append, ← hrs]
        · intro y hy
          rcases List.mem_cons.mp hy with hy | hy
          · subst hy
            exact he0 ▸ hpre p0 (by simp)
          · rcases List.mem_cons.mp hy with hy | hy
            · subst hy
              exact lt_of_le_of_lt hxle (he0 ▸ hpre p0 (by simp))
            · exact hpre y (by simp [hy])
        · intro y hy
          rcases List.mem_cons.mp hy with hy | hy
          · subst hy
            exact hall y (by simp)
          · rcases List.mem_cons.mp hy with hy | hy
            · subst hy
              exact hxle.trans (hall e0 (by simp))
            · exact hall y (by simp [hy])

/-- One `entryMap` step keeps every binding associating an entry with
its own key. -/
theorem entryMapStep_assoc : ∀ (m : List (String × HarEntry)) (e : HarEntry),
    (∀ kv ∈ m, getEntryKey kv.2 = kv.1) →
    ∀ kv ∈ entryMapStep m e, getEntryKey kv.2 = kv.1
  | [], e, _ => by
    intro kv hkv
    simp only [entryMapStep, List.mem_singleton] at hkv
    subst hkv
    rfl
  | (k2, ex) :: rest, e, hm => by
    intro kv hkv
    simp only [entryMapStep] at hkv
    by_cases h2 : k2 = getEntryKey e
    · rw [if_pos h2] at hkv
      by_cases hgt : entryBodySize e > entryBodySize ex
      · rw [if_pos hgt] at hkv
        rcases List.mem_cons.mp hkv with hkv | hkv
        · subst hkv
          exact h2.symm
        · exact hm kv (by simp [hkv])
      · rw [if_neg hgt] at hkv
        rcases List.mem_cons.mp hkv with hkv | hkv
        · subst hkv
          exact hm (k2, ex) (by simp)
        · exact hm kv (by simp [hkv])
    · rw [if_neg h2] at hkv
      rcases List.mem_cons.mp hkv with hkv | hkv
      · subst hkv
        exact hm (k2, ex) (by simp)
      · exact entryMapStep_assoc rest e (fun kv2 h => hm kv2 (by simp [h])) kv hkv

/-- Every binding of the `entryMap` associates an entry with its own
key. -/
theorem entryMap_assoc_aux : ∀ (es : List HarEntry) (m : List (String × HarEntry)),
    (∀ kv ∈ m, getEntryKey kv.2 = kv.1) →
    ∀ kv ∈ es.foldl entryMapStep m, getEntryKey kv.2 = kv.1
  | [], _, hm => hm
  | e :: es, m, hm => by
    rw [List.foldl_cons]
    exact entryMap_assoc_aux es (entryMapStep m e) (entryMapStep_assoc m e hm)

/-- Absent lookup means the key is not among the map's keys. -/
theorem lookupKey_eq_none_iff : ∀ (m : List (String × HarEntry)) (k : String),
    lookupKey k m = none ↔ k ∉ m.map Prod.fst
  | [], k => by simp [lookupKey]
  | (k2, v) :: rest, k => by
    simp only [lookupKey, List.map_cons, List.mem_cons]
    by_cases hk : k2 = k
    · simp [hk]
    · simp only [if_neg hk, lookupKey_eq_none_iff rest k]
      constructor
      · intro h hmem
        rcases hmem with hmem | hmem
        · exact hk hmem.symm
        · exact h hmem
      · intro h hmem
        exact h (Or.inr hmem)

/-- One `entryMap` step appends the incoming key exactly when it is
new; otherwise the key list is unchanged. -/
theorem entryMapStep_keys (m : List (String × HarEntry)) (e : HarEntry) :
    (entryMapStep m e).map Prod.fst
      = if lookupKey (getEntryKey e) m = none then m.map Prod.fst ++ [getEntryKey e]
        else m.map Prod.fst := by
  induction m with
  | nil => simp [entryMapStep, lookupKey]
  | cons kv rest ih =>
    obtain ⟨k2, ex⟩ := kv
    simp only [entryMapStep, lookupKey]
    by_cases h2 : k2 = getEntryKey e
    · rw [if_pos h2]
      by_cases hgt : entryBodySize e > entryBodySize ex <;> simp [h2, hgt]
    · rw [if_neg h2]
      have h2' : ¬ (k2 = getEntryKey e) := h2
      simp only [List.map_cons, ih]
      by_cases hrest : lookupKey (getEntryKey e) rest = none <;> simp [h2', hrest]

/-- The `entryMap` has pairwise distinct keys. -/
theorem entryMap_keys_nodup_aux : ∀ (es : List HarEntry) (m : List (String × HarEntry)),
    (m.map Prod.fst).Nodup → ((es.foldl entryMapStep m).map Prod.fst).Nodup
  | [], _, h => h
  | e :: es, m, h => by
    rw [List.foldl_cons]
    refine entryMap_keys_nodup_aux es _ ?_
    rw [entryMapStep_keys]
    by_cases hl : lookupKey (getEntryKey e) m = none
    · rw [if_pos hl]
      have hnew : getEntryKey e ∉ m.map Prod.fst := (lookupKey_eq_none_iff m _).mp hl
      rw [List.nodup_append]
      exact ⟨h, List.nodup_singleton _, fun a ha hb => by
        simp only [List.mem_singleton] at hb
        subst hb
        exact hnew ha⟩
    · rw [if_neg hl]
      exact h

/-- In a map with distinct keys whose bindings associate entries with
their own keys, the values carrying key `k` are exactly the binding of
`k`. -/
theorem values_filter_unique : ∀ (m : List (String × HarEntry)),
    (∀ kv ∈ m, getEntryKey kv.2 = kv.1) → (m.map Prod.fst).Nodup →
    ∀ k w, lookupKey k m = some w →
    (m.map (fun kv => kv.2)).filter (fun e => getEntryKey e == k) = [w]
  | [], _, _, k, w, h => by simp [lookupKey] at h
  | (k2, v) :: rest, hassoc, hnodup, k, w, h => by
    have hkey : getEntryKey v = k2 := hassoc (k2, v) (by simp)
    simp only [lookupKey] at h
    rw [List.map_cons, List.nodup_cons] at hnodup
    by_cases hk : k2 = k
    · rw [if_pos hk] at h
      obtain rfl : v = w := Option.some.inj h
      rw [List.map_cons, List.filter_cons_of_pos (by simp [hkey, hk])]
      have hempty : ((rest.map (fun kv => kv.2)).filter (fun e => getEntryKey e == k)) = [] := by
        rw [List.filter_eq_nil_iff]
        intro a ha
        obtain ⟨kv, hkv, rfl⟩ := List.mem_map.mp ha
        have hak : getEntryKey kv.2 = kv.1 := hassoc kv (by simp [hkv])
        intro hpred
        simp only [beq_iff_eq] at hpred
        refine hnodup.1 ?_
        rw [hk, ← hpred, hak]
        exact List.mem_map.mpr ⟨kv, hkv, rfl⟩
      rw [hempty]
    · rw [if_neg hk] at h
      rw [List.map_cons, List.filter_cons_of_neg (by simp [hkey, hk])]
      exact values_filter_unique rest (fun kv h2 => hassoc kv (by simp [h2])) hnodup.2 k w h

/-- C6: for every group of entries sharing a dedup key, exactly one
winner is retained in the output: the first entry (in input order)
whose declared body size (0 when absent) attains the group's maximum —
strictly larger sizes win, ties keep the first seen. -/
theorem deduplicateEntries_winner (es : List HarEntry) (k : String)
    (e0 : HarEntry) (rest : List HarEntry)
    (hg : es.filter (fun e => getEntryKey e == k) = e0 :: rest) :
    ∃ w pre post,
      (deduplicateEntries es).filter (fun e => getEntryKey e == k) = [w]
        ∧ e0 :: rest = pre ++ w :: post
        ∧ (∀ x ∈ pre, entryBodySize x < entryBodySize w)
        ∧ (∀ x ∈ e0 :: rest, entryBodySize x ≤ entryBodySize w) := by
  have hlk : lookupKey k (buildEntryMap es) = some (firstLargest rest e0) := by
    rw [buildEntryMap, lookupKey_foldl es [] k, hg]
    show List.foldl _ (some e0) rest = _
    exact foldl_winner_some rest e0
  obtain ⟨pre, post, hsplit, hpre, hall⟩ := firstLargest_spec rest e0
  refine ⟨firstLargest rest e0, pre, post, ?_, hsplit, hpre, hall⟩
  have hassoc := entryMap_assoc_aux es [] (by simp)
  have hnodup := entryMap_keys_nodup_aux es [] (by simp)
  have hvals := values_filter_unique (buildEntryMap es) hassoc hnodup k _ hlk
  have hperm : (deduplicateEntries es).Perm ((buildEntryMap es).map (fun kv => kv.2)) :=
    List.perm_insertionSort _ _
  have hfp := hperm.filter (fun e => getEntryKey e == k)
  rw [hvals] at hfp
  exact List.perm_singleton.mp hfp

/-- Witness for C6 at the spec's scenario: keys `k1, k1, k2` where the
second `k1` record has the larger body — the winner for `k1` is the
second record. -/
theorem deduplicateEntries_winner_witness :
    ([⟨⟨"GET", "https://x/a"⟩, ⟨200, ⟨some 3, "t"⟩⟩⟩,
      ⟨⟨"GET", "https://x/a?q=1"⟩, ⟨200, ⟨some 5, "t"⟩⟩⟩,
      ⟨⟨"GET", "https://x/b"⟩, ⟨200, ⟨none, "t"⟩⟩⟩] : List HarEntry).filter
        (fun e => getEntryKey e == "GET:https://x/a:200")
      = [⟨⟨"GET", "https://x/a"⟩, ⟨200, ⟨some 3, "t"⟩⟩⟩,
         ⟨⟨"GET", "https://x/a?q=1"⟩, ⟨200, ⟨some 5, "t"⟩⟩⟩]
    ∧ ∃ w pre post,
      (deduplicateEntries [⟨⟨"GET", "https://x/a"⟩, ⟨200, ⟨some 3, "t"⟩⟩⟩,
          ⟨⟨"GET", "https://x/a?q=1"⟩, ⟨200, ⟨some 5, "t"⟩⟩⟩,
          ⟨⟨"GET", "https://x/b"⟩, ⟨200, ⟨none, "t"⟩⟩⟩]).filter
            (fun e => getEntryKey e == "GET:https://x/a:200") = [w]
        ∧ [⟨⟨"GET", "https://x/a"⟩, ⟨200, ⟨some 3, "t"⟩⟩⟩,
           ⟨⟨"GET", "https://x/a?q=1"⟩, ⟨200, ⟨some 5, "t"⟩⟩⟩] = pre ++ w :: post
        ∧ (∀ x ∈ pre, entryBodySize x < entryBodySize w)
        ∧ (∀ x ∈ [⟨⟨"GET", "https://x/a"⟩, ⟨200, ⟨some 3, "t"⟩⟩⟩,
             ⟨⟨"GET", "https://x/a?q=1"⟩, ⟨200, ⟨some 5, "t"⟩⟩⟩],
            entryBodySize x ≤ entryBodySize w) :=
  ⟨by decide, deduplicateEntries_winner _ _ _ _ (by decide)⟩

/-- The three-way list comparison is antisymmetric. -/
theorem listCompare_neg : ∀ a b : List Char, listCompare a b = -(listCompare b a)
  | [], [] => rfl
  | [], _ :: _ => rfl
  | _ :: _, [] => rfl
  | a :: as, b :: bs => by
    by_cases h1 : a < b
    · have h2 : ¬ (b < a) := fun h => absurd h (lt_asymm h1)
      simp [listCompare, h1, h2]
    · by_cases h2 : b < a
      · simp [listCompare, h1, h2]
      · simp [listCompare, h1, h2, listCompare_neg as bs]

/-- The three-way list comparison separates equality. -/
theorem listCompare_eq_zero_iff : ∀ a b : List Char, listCompare a b = 0 ↔ a = b
  | [], [] => by simp [listCompare]
  | [], _ :: _ => by simp [listCompare]
  | _ :: _, [] => by simp [listCompare]
  | a :: as, b :: bs => by
    by_cases h1 : a < b
    · simp only [listCompare, if_pos h1]
      constructor
      · intro h
        exact absurd h (by decide)
      · intro h
        cases h
        exact absurd h1 (lt_irrefl a)
    · by_cases h2 : b < a
      · simp only [listCompare, if_neg h1, if_pos h2]
        constructor
        · intro h
          exact absurd h (by decide)
        · intro h
          cases h
          exact absurd h2 (lt_irrefl a)
      · have hab : a = b := le_antisymm (le_of_not_lt h2) (le_of_not_lt h1)
        subst hab
        simp [listCompare, listCompare_eq_zero_iff as bs]

/-- The non-strict order induced by the three-way list comparison is
transitive. -/
theorem listCompare_trans : ∀ a b c : List Char,
    listCompare a b ≤ 0 → listCompare b c ≤ 0 → listCompare a c ≤ 0
  | [], b, c => fun _ _ => by cases c <;> simp [listCompare]
  | _ :: _, [], _ => fun h _ => absurd h (by simp [listCompare])
  | _ :: _, _ :: _, [] => fun _ h => absurd h (by simp [listCompare])
  | a :: as, b :: bs, c :: cs => fun hab hbc => by
    by_cases h1 : a < b
    · by_cases h2 : b < c
      · have h3 : a < c := lt_trans h1 h2
        simp [listCompare, h3]
      · by_cases h3 : c < b
        · exfalso
          simp [listCompare, h2, h3] at hbc
        · have hbceq : b = c := le_antisymm (le_of_not_lt h3) (le_of_not_lt h2)
          subst hbceq
          simp [listCompare, h1]
    · by_cases h1' : b < a
      · exfalso
        simp [listCompare, h1, h1'] at hab
      · have hab' : a = b := le_antisymm (le_of_not_lt h1') (le_of_not_lt h1)
        subst hab'
        simp only [listCompare, lt_self_iff_false, if_false] at hab
        by_cases h2 : a < c
        · simp [listCompare, h2]
        · by_cases h3 : c < a
          · exfalso
            simp [listCompare, h2, h3] at hbc
          · have hac : a = c := le_antisymm (le_of_not_lt h3) (le_of_not_lt h2)
            subst hac
            simp only [listCompare, lt_self_iff_false, if_false] at hbc ⊢
            exact listCompare_trans as bs cs hab hbc

/-- The entry comparator is total. -/
theorem entryCompare_le_total (a b : HarEntry) :
    entryCompare a b ≤ 0 ∨ entryCompare b a ≤ 0 := by
  rw [entryCompare, entryCompare]
  by_cases h : a.request.url = b.request.url
  · rw [if_pos h, if_pos h.symm]
    omega
  · rw [if_neg h, if_neg (fun hh => h hh.symm), localeCompare, localeCompare]
    have hneg := listCompare_neg a.request.url.data b.request.url.data
    omega

/-- The entry comparator is transitive. -/
theorem entryCompare_trans (a b c : HarEntry)
    (hab : entryCompare a b ≤ 0) (hbc : entryCompare b c ≤ 0) : entryCompare a c ≤ 0 := by
  rw [entryCompare] at hab hbc ⊢
  by_cases h1 : a.request.url = b.request.url <;> by_cases h2 : b.request.url = c.request.url
  · rw [if_pos h1] at hab
    rw [if_pos h2] at hbc
    rw [if_pos (h1.trans h2)]
    omega
  · rw [if_neg h2] at hbc
    have h3 : ¬ a.request.url = c.request.url := fun h => h2 (h1.symm.trans h)
    rw [if_neg h3, localeCompare]
    rw [localeCompare] at hbc
    rw [h1]
    exact hbc
  · rw [if_neg h1] at hab
    have h3 : ¬ a.request.url = c.request.url := fun h => h1 (h.trans h2.symm)
    rw [if_neg h3, localeCompare]
    rw [localeCompare] at hab
    rw [← h2]
    exact hab
  · rw [if_neg h1] at hab
    rw [if_neg h2] at hbc
    rw [localeCompare] at hab hbc
    by_cases h3 : a.request.url = c.request.url
    · exfalso
      rw [h3] at hab
      have hneg := listCompare_neg b.request.url.data c.request.url.data
      have hzero : listCompare b.request.url.data c.request.url.data = 0 := by omega
      exact h2 (String.ext ((listCompare_eq_zero_iff _ _).mp hzero))
    · rw [if_neg h3, localeCompare]
      exact listCompare_trans _ _ _ hab hbc

/-- An absent string has index `-1` from any starting index. -/
theorem jsIndexOfGo_not_mem : ∀ (l : List String) (s : String) (i : Int),
    l.contains s = false → jsIndexOfGo s i l = -1
  | [], _, _, _ => rfl
  | x :: xs, s, i, h => by
    rw [List.contains_cons, Bool.or_eq_false_iff] at h
    have hx : ¬ (x = s) := by
      intro hxs
      subst hxs
      simp at h
    rw [jsIndexOfGo, if_neg hx]
    exact jsIndexOfGo_not_mem xs s (i + 1) h.2

/-- A present string has a non-negative index from a non-negative
starting index. -/
theorem jsIndexOfGo_nonneg : ∀ (l : List String) (s : String) (i : Int),
    0 ≤ i → l.contains s = true → 0 ≤ jsIndexOfGo s i l
  | [], _, _, _, h => by simp at h
  | x :: xs, s, i, hi, h => by
    by_cases hx : x = s
    · rw [jsIndexOfGo, if_pos hx]
      exact hi
    · rw [jsIndexOfGo, if_neg hx]
      rw [List.contains_cons, Bool.or_eq_true] at h
      rcases h with h | h
      · exact absurd (by simpa using h : s = x) (fun hs => hx hs.symm)
      · exact jsIndexOfGo_nonneg xs s (i + 1) (by omega) h

/-- C7 counterexample: two collections holding the same two records
(equal URL and method, different status, so they tie under the
comparator) produce outputs in different orders depending on the order
of the input collections. -/
theorem mergeHarFiles_order_dependent :
    mergeHarFiles [⟨⟨"1.2", ⟨"n", "v"⟩, [⟨⟨"GET", "https://x/a"⟩, ⟨200, ⟨some 1, "t"⟩⟩⟩]⟩⟩,
        ⟨⟨"1.2", ⟨"n", "v"⟩, [⟨⟨"GET", "https://x/a"⟩, ⟨404, ⟨some 1, "t"⟩⟩⟩]⟩⟩]
      = .ok ⟨⟨"1.2", ⟨"skylight-har2openapi", "1.0.0"⟩,
          [⟨⟨"GET", "https://x/a"⟩, ⟨200, ⟨some 1, "t"⟩⟩⟩,
           ⟨⟨"GET", "https://x/a"⟩, ⟨404, ⟨some 1, "t"⟩⟩⟩]⟩⟩
    ∧ mergeHarFiles [⟨⟨"1.2", ⟨"n", "v"⟩, [⟨⟨"GET", "https://x/a"⟩, ⟨404, ⟨some 1, "t"⟩⟩⟩]⟩⟩,
        ⟨⟨"1.2", ⟨"n", "v"⟩, [⟨⟨"GET", "https://x/a"⟩, ⟨200, ⟨some 1, "t"⟩⟩⟩]⟩⟩]
      = .ok ⟨⟨"1.2", ⟨"skylight-har2openapi", "1.0.0"⟩,
          [⟨⟨"GET", "https://x/a"⟩, ⟨404, ⟨some 1, "t"⟩⟩⟩,
           ⟨⟨"GET", "https://x/a"⟩, ⟨200, ⟨some 1, "t"⟩⟩⟩]⟩⟩
    ∧ ([⟨⟨"GET", "https://x/a"⟩, ⟨200, ⟨some 1, "t"⟩⟩⟩,
        ⟨⟨"GET", "https://x/a"⟩, ⟨404, ⟨some 1, "t"⟩⟩⟩] : List HarEntry)
      ≠ [⟨⟨"GET", "https://x/a"⟩, ⟨404, ⟨some 1, "t"⟩⟩⟩,
         ⟨⟨"GET", "https://x/a"⟩, ⟨200, ⟨some 1, "t"⟩⟩⟩] :=
  ⟨rfl, rfl, by decide⟩

/-- C7 (amended): the dedup output is sorted by the comparator — URLs
first, then the method priority GET, POST, PUT, PATCH, DELETE with
`-1` (before all listed methods) for anything else — and is a
permutation of the per-key winners; ties under the comparator retain
first-seen order, so the ordering is input-order-independent only up to
such ties. -/
theorem deduplicateEntries_ordering (es : List HarEntry) :
    List.Sorted entryLE (deduplicateEntries es)
    ∧ (deduplicateEntries es).Perm ((buildEntryMap es).map (fun kv => kv.2))
    ∧ (∀ m : String, methodOrder.contains (jsToUpperCase m) = false →
        jsIndexOf methodOrder (jsToUpperCase m) = -1)
    ∧ (∀ m : String, methodOrder.contains (jsToUpperCase m) = true →
        0 ≤ jsIndexOf methodOrder (jsToUpperCase m)) := by
  refine ⟨?_, List.perm_insertionSort _ _, ?_, ?_⟩
  · haveI : IsTotal HarEntry entryLE := ⟨entryCompare_le_total⟩
    haveI : IsTrans HarEntry entryLE := ⟨fun a b c => entryCompare_trans a b c⟩
    exact List.sorted_insertionSort entryLE _
  · intro m hm
    exact jsIndexOfGo_not_mem methodOrder (jsToUpperCase m) 0 hm
  · intro m hm
    exact jsIndexOfGo_nonneg methodOrder (jsToUpperCase m) 0 (by omega) hm

/-- Witness for C7: an unlisted method gets index `-1`, a listed one a
non-negative index. -/
theorem deduplicateEntries_ordering_witness :
    methodOrder.contains (jsToUpperCase "custom") = false
    ∧ jsIndexOf methodOrder (jsToUpperCase "custom") = -1
    ∧ methodOrder.contains (jsToUpperCase "get") = true
    ∧ 0 ≤ jsIndexOf methodOrder (jsToUpperCase "get") :=
  ⟨by decide, (deduplicateEntries_ordering []).2.2.1 "custom" (by decide),
   by decide, (deduplicateEntries_ordering []).2.2.2 "get" (by decide)⟩

/-- Setting a method slot changes exactly that slot. -/
theorem getOp_setOp_same (item : PathItemObject) (m : HttpMethod)
    (op : Option OperationObject) : (item.setOp m op).getOp m = op := by
  cases m <;> rfl

/-- Setting a method slot leaves the other slots unchanged. -/
theorem getOp_setOp_ne (item : PathItemObject) (me m : HttpMethod)
    (op : Option OperationObject) (h : ¬ me = m) :
    (item.setOp me op).getOp m = item.getOp m := by
  cases me <;> cases m <;> first | exact absurd rfl h | rfl

/-- A parameter-injection step leaves other method slots unchanged. -/
theorem addPathParametersStep_getOp_ne (ps : List ParameterObject)
    (r : PathItemObject) (me m : HttpMethod) (h : ¬ me = m) :
    (addPathParametersStep ps r me).getOp m = r.getOp m := by
  cases h1 : r.getOp me <;>
    simp [addPathParametersStep, h1, getOp_setOp_ne _ _ _ _ h]

/-- A parameter-injection step transforms its own slot by prepending
the not-yet-declared template parameters. -/
theorem addPathParametersStep_getOp_same (ps : List ParameterObject)
    (r : PathItemObject) (m : HttpMethod) :
    (addPathParametersStep ps r m).getOp m
      = (r.getOp m).map (fun operation =>
          { operation with
            parameters := some ((ps.filter (fun p =>
                !(((operation.parameters.getD []).map (fun q => q.name)).contains p.name)))
              ++ operation.parameters.getD []) }) := by
  cases h1 : r.getOp m <;>
    simp [addPathParametersStep, h1, getOp_setOp_same]

/-- A merge step leaves other method slots unchanged. -/
theorem mergePathItemsStep_getOp_ne (ex inc r : PathItemObject) (me m : HttpMethod)
    (h : ¬ me = m) : (mergePathItemsStep ex inc r me).getOp m = r.getOp m := by
  cases h1 : inc.getOp me <;> cases h2 : ex.getOp me <;>
    simp [mergePathItemsStep, h1, h2, getOp_setOp_ne _ _ _ _ h]

/-- A merge step fills its own slot from the incoming item only when
the existing item lacks it. -/
theorem mergePathItemsStep_getOp_same (ex inc r : PathItemObject) (m : HttpMethod) :
    (mergePathItemsStep ex inc r m).getOp m
      = match inc.getOp m, ex.getOp m with
        | some i, none => some i
        | _, _ => r.getOp m := by
  cases h1 : inc.getOp m <;> cases h2 : ex.getOp m <;>
    simp [mergePathItemsStep, h1, h2, getOp_setOp_same]

/-- Method-slot description of `addPathParameters` on a template with
at least one `{name}` token. -/
theorem addPathParameters_getOp (pi : PathItemObject) (t : String) (m : HttpMethod)
    (hne : ¬ extractPathParameters t = []) :
    (addPathParameters pi t).getOp m
      = (pi.getOp m).map (fun operation =>
          { operation with
            parameters := some (((extractPathParameters t).filter (fun p =>
                !(((operation.parameters.getD []).map (fun q => q.name)).contains p.name)))
              ++ operation.parameters.getD []) }) := by
  have hie : (extractPathParameters t).isEmpty = false := by
    cases hxe : extractPathParameters t
    · exact absurd hxe hne
    · rfl
  rw [addPathParameters]
  simp only [hie, Bool.false_eq_true, if_false, httpMethods, List.foldl_cons, List.foldl_nil]
  cases m <;>
    simp [addPathParametersStep_getOp_ne, addPathParametersStep_getOp_same]

/-- Method-slot description of `mergePathItems`: existing wins, the
incoming operation is taken only for a missing method. -/
theorem mergePathItems_getOp (ex inc : PathItemObject) (m : HttpMethod) :
    (mergePathItems ex inc).getOp m
      = match inc.getOp m, ex.getOp m with
        | some i, none => some i
        | _, _ => ex.getOp m := by
  rw [mergePathItems]
  simp only [httpMethods, List.foldl_cons, List.foldl_nil]
  cases m <;>
    simp [mergePathItemsStep_getOp_ne, mergePathItemsStep_getOp_same]

/-- C4 counterexample: two concrete paths collide into the template
`/frames/{frameId}`; the GET of the first-seen path gets the `frameId`
parameter injected, but the POST contributed by the later colliding
path is merged in verbatim with no parameters — an operation reachable
under the template without the template's required path parameter. -/
theorem normalizeOpenApiPaths_merge_skips_injection :
    normalizeOpenApiPaths
        [("/frames/abc", ⟨some ⟨none, 10⟩, none, none, none, none, none, none⟩),
         ("/frames/def", ⟨none, some ⟨none, 20⟩, none, none, none, none, none⟩)]
      = [("/frames/{frameId}",
          ⟨some ⟨some [⟨"frameId", "path", true, ⟨"string"⟩⟩], 10⟩, some ⟨none, 20⟩,
           none, none, none, none, none⟩)]
    ∧ extractPathParameters "/frames/{frameId}" = [⟨"frameId", "path", true, ⟨"string"⟩⟩]
    ∧ (⟨none, 20⟩ : OperationObject).parameters = none :=
  ⟨by decide, by decide, rfl⟩

/-- C4 (amended): each `{name}` token of a normalized template becomes a
required, string-typed, path-located parameter; a first-seen path item
gets these parameters injected into each of its operations (skipping
names the operation already declares, prepending the new ones), while a
path item colliding with an already-seen template is merged per method
— existing operations win and operations contributed by the later path
are taken verbatim, without parameter injection. -/
theorem normalizeOpenApiPaths_injection_spec :
    (∀ (t : String) (par : ParameterObject), par ∈ extractPathParameters t →
      par.«in» = "path" ∧ par.required = true ∧ par.schema = ⟨"string"⟩)
    ∧ (∀ (pi : PathItemObject) (t : String) (m : HttpMethod),
        ¬ extractPathParameters t = [] →
        (addPathParameters pi t).getOp m
          = (pi.getOp m).map (fun operation =>
              { operation with
                parameters := some (((extractPathParameters t).filter (fun p =>
                    !(((operation.parameters.getD []).map (fun q => q.name)).contains p.name)))
                  ++ operation.parameters.getD []) }))
    ∧ (∀ pi t, extractPathParameters t = [] → addPathParameters pi t = pi)
    ∧ (∀ ex inc m, (mergePathItems ex inc).getOp m
        = match inc.getOp m, ex.getOp m with
          | some i, none => some i
          | _, _ => ex.getOp m)
    ∧ (∀ (p : String) (pi : PathItemObject),
        normalizeOpenApiPaths [(p, pi)]
          = [(normalizePath p, addPathParameters pi (normalizePath p))])
    ∧ (∀ (p1 p2 : String) (pi1 pi2 : PathItemObject),
        normalizePath p2 = normalizePath p1 →
        normalizeOpenApiPaths [(p1, pi1), (p2, pi2)]
          = [(normalizePath p1,
              mergePathItems (addPathParameters pi1 (normalizePath p1)) pi2)]) := by
  refine ⟨?_, addPathParameters_getOp, ?_, mergePathItems_getOp, ?_, ?_⟩
  · intro t par hpar
    obtain ⟨n, _, rfl⟩ := List.mem_map.mp hpar
    exact ⟨rfl, rfl, rfl⟩
  · intro pi t h
    rw [addPathParameters]
    simp [h]
  · intro p pi
    rfl
  · intro p1 p2 pi1 pi2 h
    simp only [normalizeOpenApiPaths, List.foldl_cons, List.foldl_nil]
    simp [lookupPathItem, updatePathItem, h]

/-- Witness for C4: the collision clause applied to the concrete paths
`/frames/abc` and `/frames/def`. -/
theorem normalizeOpenApiPaths_injection_spec_witness :
    normalizePath "/frames/def" = normalizePath "/frames/abc"
    ∧ normalizeOpenApiPaths
        [("/frames/abc", ⟨some ⟨none, 11⟩, none, none, none, none, none, none⟩),
         ("/frames/def", ⟨none, some ⟨none, 21⟩, none, none, none, none, none⟩)]
      = [(normalizePath "/frames/abc",
          mergePathItems
            (addPathParameters ⟨some ⟨none, 11⟩, none, none, none, none, none, none⟩
              (normalizePath "/frames/abc"))
            ⟨none, some ⟨none, 21⟩, none, none, none, none, none⟩)] :=
  ⟨by decide,
   normalizeOpenApiPaths_injection_spec.2.2.2.2.2 "/frames/abc" "/frames/def"
     ⟨some ⟨none, 11⟩, none, none, none, none, none, none⟩
     ⟨none, some ⟨none, 21⟩, none, none, none, none, none⟩ (by decide)⟩

end Skylight

